import Mathlib

/-!
Verification of the per-channel delivery engine of a topic/channel message
broker (package `nsqd`) and its generic priority-queue substrate (package
`pqueue`).

The embedding mirrors the Go source.  Go heap items (`*pqueue.Item`) are
pointers shared between a channel's id map and the heap's backing slice, so
they are modelled by a *store* (`Store`, a list of `Item` records) and heaps
are lists of store addresses.  Machine `int64` nanosecond timestamps are
modelled as `Int` (no arithmetic in the source approaches the 64-bit bound for
the inputs considered).  Slice capacity management (doubling on `Push`,
shrinking in `pop`) is not observable through any operation's results and is
omitted.  Go code that would panic (popping an empty heap, out-of-range index)
is totalised with default values; theorems only evaluate it inside the
source's own guards.
-/

namespace pqueue

/-- Item of the generic priority queue (Go `pqueue.Item[T, P]`), at the
instantiation the channel uses: `T = *Message` (a pointer, modelled as a
message-store address in `val`) and `P = int64` nanoseconds (`Int`).
`index` is the item's back-index field, written through the pointer by the
heap operations. -/
structure Item where
  val : Nat
  priority : Int
  index : Int
deriving Repr, DecidableEq

/-- Store of heap items: models the pointed-to `*Item` objects; a heap is a
list of store addresses. -/
abbrev Store := List Item

/-- Read the item at address `a` (default item if the address is unallocated). -/
def getItem (s : Store) (a : Nat) : Item := s.getD a ⟨0, 0, 0⟩

/-- Write the `index` field of the item at address `a` (no-op when out of
range, which never happens for allocated items). -/
def setIndex (s : Store) (a : Nat) (i : Int) : Store :=
  s.set a { getItem s a with index := i }

/-- Write the `priority` field of the item at address `a` (Go
`item.Priority = ...` in `TouchMessage`). -/
def setPriority (s : Store) (a : Nat) (p : Int) : Store :=
  s.set a { getItem s a with priority := p }

/-- Go `pqueue.Min`, the comparator both channel trackers pass to `New`. -/
def Min (i j : Int) : Bool := i < j

/-- Priority of the item at address `a` (abbreviation for stating heap facts). -/
def key (s : Store) (a : Nat) : Int := (getItem s a).priority

/-- Go `less`: compares the priorities at heap positions `i` and `j` using the
queue's comparator, which the channel always instantiates to `Min`. -/
def less (s : Store) (h : List Nat) (i j : Nat) : Bool :=
  Min (key s (h.getD i 0)) (key s (h.getD j 0))

/-- Go `swap`: swaps positions `i` and `j` of the backing slice.  Note that it
does not write the two items' `index` fields (the store is untouched). -/
def swap (h : List Nat) (i j : Nat) : List Nat :=
  (h.set i (h.getD j 0)).set j (h.getD i 0)

/-- Go `up`: sift the element at position `j` towards the root.  In Go,
`(j-1)/2` for `j = 0` is `0` (truncated division of `-1`), matching `Nat`
subtraction here, so the `i == j` break fires exactly at the root. -/
def up (s : Store) (h : List Nat) (j : Nat) : List Nat :=
  if hc : ((j - 1) / 2 == j) || !(less s h j ((j - 1) / 2)) then h
  else up s (swap h ((j - 1) / 2) j) ((j - 1) / 2)
termination_by j
decreasing_by
  simp only [Bool.or_eq_true, beq_iff_eq, Bool.not_eq_true', not_or] at hc
  have h2 := Nat.div_le_self (j - 1) 2
  omega

/-- Go `down`: sift the element at position `i` down, staying below bound `n`;
returns the final heap together with the final position (Go returns the
boolean `i > i0`, recovered at call sites as `i0 < (down ...).2`).  The Go
overflow guard `j1 < 0` cannot fire at these sizes and is omitted. -/
def down (s : Store) (h : List Nat) (i n : Nat) : List Nat × Nat :=
  if hc : 2 * i + 1 ≥ n then (h, i)
  else
    let j := if 2 * i + 2 < n && less s h (2 * i + 2) (2 * i + 1) then 2 * i + 2
             else 2 * i + 1
    if less s h j i then down s (swap h i j) j n else (h, i)
termination_by n - i
decreasing_by
  simp only [not_le] at hc
  split <;> omega

/-- Go unexported `pop`: detaches the last slice element, writing the `-1`
sentinel into its `index` field, and returns its address.  (Capacity
shrinking omitted; Go panics on an empty heap, totalised here.) -/
def pop (s : Store) (h : List Nat) : Store × List Nat × Nat :=
  let a := h.getD (h.length - 1) 0
  (setIndex s a (-1), h.dropLast, a)

/-- Go `Push`: writes `item.Index = n`, appends, sifts up. -/
def Push (s : Store) (h : List Nat) (a : Nat) : Store × List Nat :=
  let n := h.length
  let s1 := setIndex s a (Int.ofNat n)
  (s1, up s1 (h ++ [a]) n)

/-- Go `Pop`: swaps the head to the tail, sifts the new head down within the
first `n-1` positions, then detaches the tail. -/
def Pop (s : Store) (h : List Nat) : Store × List Nat × Nat :=
  let n := h.length
  let h1 := swap h 0 (n - 1)
  let h2 := (down s h1 0 (n - 1)).1
  pop s h2

/-- Go `Remove`: swaps position `i` with the tail, re-heapifies (down, then up
if down did not move), then detaches the tail. -/
def Remove (s : Store) (h : List Nat) (i : Nat) : Store × List Nat × Nat :=
  let n := h.length
  if i ≠ n - 1 then
    let h1 := swap h i (n - 1)
    let d := down s h1 i (n - 1)
    let h2 := if d.2 ≤ i then up s d.1 i else d.1
    pop s h2
  else pop s h

/-- Go `Update`: no-op when the item's stored index is the `-1` sentinel,
otherwise re-heapifies from that index. -/
def Update (s : Store) (h : List Nat) (a : Nat) : List Nat :=
  let idx := (getItem s a).index
  if idx == -1 then h
  else
    let i := idx.toNat
    let d := down s h i h.length
    if d.2 ≤ i then up s d.1 i else d.1

/-- Go `PeekAndShift`: nothing on an empty heap or when the predicate holds of
the head's priority; otherwise `Remove(0)` and return the head. -/
def PeekAndShift (s : Store) (h : List Nat) (comp : Int → Bool) :
    Store × List Nat × Option Nat :=
  if h.length = 0 then (s, h, none)
  else
    let a := h.getD 0 0
    if comp (key s a) then (s, h, none)
    else
      let r := Remove s h 0
      (r.1, r.2.1, some a)

/-- Go `Len`. -/
def Len (h : List Nat) : Nat := h.length

/-- Specification vocabulary: the binary-heap ordering property for the first
`n` positions of heap `h`, with respect to a priority assignment `pr` on
addresses — every non-root position is at least its parent `(j-1)/2`.  The
channel's comparator is `Min`, so this is the min-heap property. -/
def HeapD (pr : Nat → Int) (h : List Nat) (n : Nat) : Prop :=
  ∀ j, j < n → 1 ≤ j → pr (h.getD ((j - 1) / 2) 0) ≤ pr (h.getD j 0)

instance (pr : Nat → Int) (h : List Nat) (n : Nat) : Decidable (HeapD pr h n) := by
  unfold HeapD
  infer_instance

/-- Specification vocabulary: push a sequence of item addresses in order. -/
def pushAll (s : Store) (h : List Nat) : List Nat → Store × List Nat
  | [] => (s, h)
  | a :: as =>
    let r := Push s h a
    pushAll r.1 r.2 as

/-- Specification vocabulary: pop `k` times, collecting the returned item
addresses in order. -/
def popList (s : Store) (h : List Nat) : Nat → List Nat
  | 0 => []
  | k + 1 =>
    let r := Pop s h
    r.2.2 :: popList r.1 r.2.1 k

end pqueue

namespace nsqd

/-- Message record.  Modelled from the spec: the file `nsqd/message.go`
declaring the `Message` struct is not under `src/`; the spec's data model
lists the fields the channel engine reads and writes: identifier, publish
timestamp (nanoseconds), owning-consumer id `clientID` (valid while in
flight), and delivery wall time `deliveryTS`.  The payload and attempt
counter are never consulted by the channel code under verification and are
omitted.  Times are `Int` nanoseconds, consumer ids `Int` (Go `int64`). -/
structure Message where
  ID : Nat
  Timestamp : Int
  clientID : Int
  deliveryTS : Int
deriving Repr, DecidableEq

/-- Error kinds returned by channel operations, one per distinct `errors.New`
site in `channel.go` (plus the abstract backend append failure). -/
inductive ChanErr where
  /-- Go `errors.New("exiting")`. -/
  | exiting
  /-- Go `errors.New("ID not in flight")`. -/
  | notInFlight
  /-- Go `errors.New("client does not own message")`. -/
  | notOwner
  /-- Go `errors.New("ID already in flight")`. -/
  | alreadyInFlight
  /-- Go `errors.New("ID already deferred")`. -/
  | alreadyDeferred
  /-- Failure of `writeMessageToBackend` (the abstract durable queue). -/
  | backendErr
deriving Repr, DecidableEq

/-- Channel state (`nsqd.Channel`), restricted to the fields the verified
operations read or write.  `msgs` is the message store (Go messages are
`*Message` pointers; addresses index this list) and `items` the pqueue item
store, shared between each tracker's id map and heap exactly as the Go
pointers are.  `memoryMsgChan` is the bounded backlog buffer (a Go channel of
capacity `memQueueSize`; a nil channel, used when `MemQueueSize == 0`, never
accepts and has length 0, which coincides with capacity 0 here).  `backend`
records the addresses appended to the abstract durable queue, whose depth is
its length; `backendFail` models the collaborator's append failure mode.
`maxMsgTimeout` is the `MaxMsgTimeout` option.  Consumer registry, pause
state, latency stream and locks are not consulted by the claims. -/
structure Chan where
  msgs : List Message
  items : pqueue.Store
  inFlightMessages : List (Nat × Nat)
  inFlightPQ : List Nat
  deferredMessages : List (Nat × Nat)
  deferredPQ : List Nat
  memoryMsgChan : List Nat
  memQueueSize : Nat
  backend : List Nat
  backendFail : Bool
  maxMsgTimeout : Int
  messageCount : Nat
  requeueCount : Nat
  timeoutCount : Nat
  exitFlag : Bool
deriving Repr, DecidableEq

/-- Read a message from the store (default when unallocated, which the
verified runs never do). -/
def getMsg (c : Chan) (a : Nat) : Message := c.msgs.getD a ⟨0, 0, 0, 0⟩

/-- Go `Exiting`. -/
def Chan.Exiting (c : Chan) : Bool := c.exitFlag

/-- Go `Depth`: backlog length plus backend depth. -/
def Chan.Depth (c : Chan) : Nat := c.memoryMsgChan.length + c.backend.length

/-- Go unexported `put`: non-blocking send to `memoryMsgChan`, falling back to
`writeMessageToBackend` (whose error is returned; `SetHealth` is opaque). -/
def Chan.put (c : Chan) (a : Nat) : Chan × Option ChanErr :=
  if c.memoryMsgChan.length < c.memQueueSize then
    ({ c with memoryMsgChan := c.memoryMsgChan ++ [a] }, none)
  else if c.backendFail then (c, some .backendErr)
  else ({ c with backend := c.backend ++ [a] }, none)

/-- Go `PutMessage`: fail when exiting, otherwise `put` and on success bump
`messageCount`. -/
def Chan.PutMessage (c : Chan) (a : Nat) : Chan × Option ChanErr :=
  if c.Exiting then (c, some .exiting)
  else
    match c.put a with
    | (c1, some e) => (c1, some e)
    | (c1, none) => ({ c1 with messageCount := c1.messageCount + 1 }, none)

/-- Go `pushInFlightMessage`: reject when the id is already mapped, else
insert into the in-flight dictionary. -/
def Chan.pushInFlightMessage (c : Chan) (itemA : Nat) : Chan × Option ChanErr :=
  let mid := (getMsg c (pqueue.getItem c.items itemA).val).ID
  match c.inFlightMessages.lookup mid with
  | some _ => (c, some .alreadyInFlight)
  | none => ({ c with inFlightMessages := c.inFlightMessages ++ [(mid, itemA)] }, none)

/-- Go `popInFlightMessage`: look up by id, check ownership, and remove from
the dictionary unless `peek`. -/
def Chan.popInFlightMessage (c : Chan) (clientID : Int) (id : Nat) (peek : Bool) :
    Chan × Except ChanErr Nat :=
  match c.inFlightMessages.lookup id with
  | none => (c, .error .notInFlight)
  | some itemA =>
    if (getMsg c (pqueue.getItem c.items itemA).val).clientID ≠ clientID then
      (c, .error .notOwner)
    else if peek then (c, .ok itemA)
    else
      ({ c with inFlightMessages := c.inFlightMessages.filter (fun p => !(p.1 == id)) },
        .ok itemA)

/-- Go `addToInFlightPQ`. -/
def Chan.addToInFlightPQ (c : Chan) (itemA : Nat) : Chan :=
  let r := pqueue.Push c.items c.inFlightPQ itemA
  { c with items := r.1, inFlightPQ := r.2 }

/-- Go `removeFromInFlightPQ`: positional removal at the item's stored index,
skipped when the index is the `-1` sentinel. -/
def Chan.removeFromInFlightPQ (c : Chan) (itemA : Nat) : Chan :=
  let idx := (pqueue.getItem c.items itemA).index
  if idx ≠ -1 then
    let r := pqueue.Remove c.items c.inFlightPQ idx.toNat
    { c with items := r.1, inFlightPQ := r.2.1 }
  else c

/-- Go `pushDeferredMessage`. -/
def Chan.pushDeferredMessage (c : Chan) (itemA : Nat) : Chan × Option ChanErr :=
  let mid := (getMsg c (pqueue.getItem c.items itemA).val).ID
  match c.deferredMessages.lookup mid with
  | some _ => (c, some .alreadyDeferred)
  | none => ({ c with deferredMessages := c.deferredMessages ++ [(mid, itemA)] }, none)

/-- Go `addToDeferredPQ`. -/
def Chan.addToDeferredPQ (c : Chan) (itemA : Nat) : Chan :=
  let r := pqueue.Push c.items c.deferredPQ itemA
  { c with items := r.1, deferredPQ := r.2 }

/-- Go `StartInFlightTimeout`: stamp the message with `clientID` and
`deliveryTS = now`, allocate an item with priority `now + timeout`
nanoseconds, insert into the map and then the heap.  `now` stands for
`time.Now()`. -/
def Chan.StartInFlightTimeout (c : Chan) (a : Nat) (clientID : Int) (timeout now : Int) :
    Chan × Option ChanErr :=
  let c0 := { c with msgs := c.msgs.set a { getMsg c a with clientID := clientID, deliveryTS := now } }
  let itemA := c0.items.length
  let c1 := { c0 with items := c0.items ++ [(⟨a, now + timeout, 0⟩ : pqueue.Item)] }
  match c1.pushInFlightMessage itemA with
  | (c2, some e) => (c2, some e)
  | (c2, none) => (c2.addToInFlightPQ itemA, none)

/-- Go `StartDeferredTimeout`: allocate an item with priority `now + timeout`,
insert into the deferred map and then the heap. -/
def Chan.StartDeferredTimeout (c : Chan) (a : Nat) (timeout now : Int) :
    Chan × Option ChanErr :=
  let itemA := c.items.length
  let c1 := { c with items := c.items ++ [(⟨a, now + timeout, 0⟩ : pqueue.Item)] }
  match c1.pushDeferredMessage itemA with
  | (c2, some e) => (c2, some e)
  | (c2, none) => (c2.addToDeferredPQ itemA, none)

/-- Go `PutMessageDeferred`: bump `messageCount`, then schedule; the result of
`StartDeferredTimeout` is discarded (the Go call ignores its error and the
function returns nothing). -/
def Chan.PutMessageDeferred (c : Chan) (a : Nat) (timeout now : Int) : Chan :=
  let c1 := { c with messageCount := c.messageCount + 1 }
  (c1.StartDeferredTimeout a timeout now).1

/-- Go `TouchMessage`: peek the in-flight item (ownership checked), compute
`newTimeout = now + clientMsgTimeout` clamped so it never exceeds
`deliveryTS + MaxMsgTimeout`, write it into the item's priority and
re-heapify with `Update`. -/
def Chan.TouchMessage (c : Chan) (clientID : Int) (id : Nat) (clientMsgTimeout now : Int) :
    Chan × Option ChanErr :=
  match c.popInFlightMessage clientID id true with
  | (c1, .error e) => (c1, some e)
  | (c1, .ok itemA) =>
    let m := getMsg c1 (pqueue.getItem c1.items itemA).val
    let newTimeout := now + clientMsgTimeout
    let newTimeout :=
      if newTimeout - m.deliveryTS ≥ c1.maxMsgTimeout then m.deliveryTS + c1.maxMsgTimeout
      else newTimeout
    let s1 := pqueue.setPriority c1.items itemA newTimeout
    ({ c1 with items := s1, inFlightPQ := pqueue.Update s1 c1.inFlightPQ itemA }, none)

/-- Go `FinishMessage`: pop from the in-flight dictionary (with removal) and
remove from the heap.  The latency estimator is nil in the verified
configuration and its insert is skipped. -/
def Chan.FinishMessage (c : Chan) (clientID : Int) (id : Nat) : Chan × Option ChanErr :=
  match c.popInFlightMessage clientID id false with
  | (c1, .error e) => (c1, some e)
  | (c1, .ok itemA) => (c1.removeFromInFlightPQ itemA, none)

/-- Go `RequeueMessage`: pop from in-flight (with removal), remove from the
heap, bump `requeueCount`; then either re-`put` (timeout 0, failing when
exiting) or start a deferred timeout. -/
def Chan.RequeueMessage (c : Chan) (clientID : Int) (id : Nat) (timeout now : Int) :
    Chan × Option ChanErr :=
  match c.popInFlightMessage clientID id false with
  | (c1, .error e) => (c1, some e)
  | (c1, .ok itemA) =>
    let c2 := c1.removeFromInFlightPQ itemA
    let c3 := { c2 with requeueCount := c2.requeueCount + 1 }
    if timeout == 0 then
      if c3.Exiting then (c3, some .exiting)
      else c3.put (pqueue.getItem c3.items itemA).val
    else c3.StartDeferredTimeout (pqueue.getItem c3.items itemA).val timeout now

/-- Loop body of Go `processDeferredQueue`: `PeekAndShift` the due head, erase
it from the deferred dictionary, `put` it (error discarded, as in Go), and
continue.  Each iteration removes exactly one heap element, so the heap
length at entry, passed as `fuel` by `processDeferredQueue`, is an exact
bound on the number of iterations. -/
def Chan.pdqLoop (c : Chan) (t : Int) (dirty : Bool) : Nat → Chan × Bool
  | 0 => (c, dirty)
  | fuel + 1 =>
    let r := pqueue.PeekAndShift c.items c.deferredPQ (fun p => decide (t < p))
    match r.2.2 with
    | none => (c, dirty)
    | some itemA =>
      let c1 := { c with items := r.1, deferredPQ := r.2.1 }
      let mid := (getMsg c1 (pqueue.getItem c1.items itemA).val).ID
      let c2 := { c1 with deferredMessages := c1.deferredMessages.filter (fun p => !(p.1 == mid)) }
      let c3 := (c2.put (pqueue.getItem c2.items itemA).val).1
      c3.pdqLoop t true fuel

/-- Go `processDeferredQueue(t)`: nothing when exiting, else release every due
deferred item, reporting whether any was released. -/
def Chan.processDeferredQueue (c : Chan) (t : Int) : Chan × Bool :=
  if c.Exiting then (c, false)
  else c.pdqLoop t false c.deferredPQ.length

/-- Go `NewChannel` followed by `initPQ`: a fresh channel with empty trackers,
empty backlog of the given capacity, zero counters and the exit flag clear.
The message and item stores start empty (no allocations yet); the backend, an
external collaborator, starts empty with the given failure mode. -/
def NewChannel (memQueueSize : Nat) (maxMsgTimeout : Int) (backendFail : Bool) : Chan :=
  { msgs := [], items := [], inFlightMessages := [], inFlightPQ := [],
    deferredMessages := [], deferredPQ := [], memoryMsgChan := [],
    memQueueSize := memQueueSize, backend := [], backendFail := backendFail,
    maxMsgTimeout := maxMsgTimeout, messageCount := 0, requeueCount := 0,
    timeoutCount := 0, exitFlag := false }

end nsqd

namespace pqueue

theorem getD_set_ne {α : Type} (l : List α) {i k : Nat} (a d : α) (hne : i ≠ k) :
    (l.set i a).getD k d = l.getD k d := by
  rw [List.getD_eq_getElem?_getD, List.getD_eq_getElem?_getD, List.getElem?_set_ne hne]

theorem getD_set_self {α : Type} (l : List α) {i : Nat} (a d : α) (h : i < l.length) :
    (l.set i a).getD i d = a := by
  rw [List.getD_eq_getElem?_getD, List.getElem?_set_self h]
  rfl

theorem set_getD_self {α : Type} (l : List α) (i : Nat) (d : α) (h : i < l.length) :
    l.set i (l.getD i d) = l := by
  apply List.ext_getElem
  · simp
  · intro n h1 h2
    simp only [List.getElem_set]
    split
    · next he => subst he; rw [List.getD_eq_getElem l d h]
    · rfl

theorem swap_length (h : List Nat) (i j : Nat) : (swap h i j).length = h.length := by
  simp [swap]

theorem swap_getD_of_ne (h : List Nat) {i j k : Nat} (hki : k ≠ i) (hkj : k ≠ j) :
    (swap h i j).getD k 0 = h.getD k 0 := by
  rw [swap, getD_set_ne _ _ _ (Ne.symm hkj), getD_set_ne _ _ _ (Ne.symm hki)]

theorem swap_getD_right (h : List Nat) {i j : Nat} (hj : j < h.length) :
    (swap h i j).getD j 0 = h.getD i 0 := by
  rw [swap, getD_set_self _ _ _ (by simpa using hj)]

theorem swap_getD_left (h : List Nat) {i j : Nat} (hi : i < h.length) (hij : i ≠ j) :
    (swap h i j).getD i 0 = h.getD j 0 := by
  rw [swap, getD_set_ne _ _ _ (Ne.symm hij), getD_set_self _ _ _ hi]

theorem swap_self (h : List Nat) (i : Nat) : swap h i i = h := by
  by_cases hi : i < h.length
  · rw [swap, List.set_set, set_getD_self _ _ _ hi]
  · rw [swap, List.set_eq_of_length_le (by simp; omega), List.set_eq_of_length_le (by omega)]

theorem swap_perm_of_lt (h : List Nat) {i j : Nat} (hij : i < j) (hj : j < h.length) :
    List.Perm (swap h i j) h := by
  have hi : i < h.length := lt_trans hij hj
  rw [swap, List.getD_eq_getElem h 0 hj, List.getD_eq_getElem h 0 hi]
  rw [← Multiset.coe_eq_coe]
  rw [List.set_eq_take_cons_drop h[i] (by simpa using hj)]
  rw [List.set_take, List.drop_set_of_lt _ _ (by omega)]
  rw [List.set_eq_take_cons_drop h[j] (by simp; omega)]
  rw [List.take_take, min_eq_left (le_of_lt hij)]
  conv_rhs =>
    rw [← List.take_append_drop j h, List.drop_eq_getElem_cons hj,
      ← List.take_append_drop i (h.take j), List.take_take, min_eq_left (le_of_lt hij),
      List.drop_eq_getElem_cons (show i < (h.take j).length by simp; omega)]
  rw [List.getElem_take]
  simp only [← Multiset.coe_add, ← Multiset.cons_coe, ← Multiset.singleton_add]
  abel

theorem swap_perm (h : List Nat) {i j : Nat} (hi : i < h.length) (hj : j < h.length) :
    List.Perm (swap h i j) h := by
  rcases lt_trichotomy i j with hij | rfl | hij
  · exact swap_perm_of_lt h hij hj
  · rw [swap_self]
  · have : swap h i j = swap h j i := by
      rw [swap, swap, List.set_comm _ _ _ (by omega)]
    rw [this]
    exact swap_perm_of_lt h hij hi

theorem key_setIndex (s : Store) (a : Nat) (i : Int) (b : Nat) :
    key (setIndex s a i) b = key s b := by
  unfold key setIndex getItem
  by_cases hr : a < s.length
  · by_cases hab : a = b
    · subst hab
      rw [getD_set_self _ _ _ hr]
    · rw [getD_set_ne _ _ _ hab]
  · rw [List.set_eq_of_length_le (by omega)]

theorem val_setIndex (s : Store) (a : Nat) (i : Int) (b : Nat) :
    (getItem (setIndex s a i) b).val = (getItem s b).val := by
  unfold setIndex getItem
  by_cases hr : a < s.length
  · by_cases hab : a = b
    · subst hab
      rw [getD_set_self _ _ _ hr]
    · rw [getD_set_ne _ _ _ hab]
  · rw [List.set_eq_of_length_le (by omega)]

theorem key_setPriority_ne (s : Store) {a b : Nat} (p : Int) (hab : a ≠ b) :
    key (setPriority s a p) b = key s b := by
  unfold key setPriority getItem
  rw [getD_set_ne _ _ _ hab]

theorem key_setPriority_self (s : Store) {a : Nat} (p : Int) (ha : a < s.length) :
    key (setPriority s a p) a = p := by
  unfold key setPriority getItem
  rw [getD_set_self _ _ _ ha]

theorem setIndex_length (s : Store) (a : Nat) (i : Int) :
    (setIndex s a i).length = s.length := by
  simp [setIndex]

theorem setPriority_length (s : Store) (a : Nat) (p : Int) :
    (setPriority s a p).length = s.length := by
  simp [setPriority]

theorem up_eq_stop (s : Store) (h : List Nat) (j : Nat)
    (hc : (((j - 1) / 2 == j) || !(less s h j ((j - 1) / 2))) = true) :
    up s h j = h := by
  rw [up, dif_pos hc]

theorem up_eq_rec (s : Store) (h : List Nat) (j : Nat)
    (hc : ¬ (((j - 1) / 2 == j) || !(less s h j ((j - 1) / 2))) = true) :
    up s h j = up s (swap h ((j - 1) / 2) j) ((j - 1) / 2) := by
  rw [up, dif_neg hc]

theorem up_length (s : Store) (h : List Nat) (j : Nat) :
    (up s h j).length = h.length := by
  induction h, j using up.induct s with
  | case1 h j hc => rw [up_eq_stop s h j hc]
  | case2 h j hc ih => rw [up_eq_rec s h j hc, ih, swap_length]

theorem up_getD_gt (s : Store) (h : List Nat) (j : Nat) {k : Nat} (hk : j < k) :
    (up s h j).getD k 0 = h.getD k 0 := by
  induction h, j using up.induct s with
  | case1 h j hc => rw [up_eq_stop s h j hc]
  | case2 h j hc ih =>
    have hd := Nat.div_le_self (j - 1) 2
    rw [up_eq_rec s h j hc, ih (by omega), swap_getD_of_ne h (by omega) (by omega)]

theorem up_perm (s : Store) (h : List Nat) (j : Nat) (hj : j < h.length) :
    List.Perm (up s h j) h := by
  induction h, j using up.induct s with
  | case1 h j hc => rw [up_eq_stop s h j hc]
  | case2 h j hc ih =>
    have hne : (j - 1) / 2 ≠ j := by
      intro he
      exact hc (by simp [he])
    have hd := Nat.div_le_self (j - 1) 2
    rw [up_eq_rec s h j hc]
    exact (ih (by rw [swap_length]; omega)).trans (swap_perm h (by omega) hj)

theorem down_eq_leaf (s : Store) (h : List Nat) (i n : Nat) (hc : 2 * i + 1 ≥ n) :
    down s h i n = (h, i) := by
  rw [down]
  simp [hc]

theorem down_eq_rec (s : Store) (h : List Nat) (i n : Nat) (hc : ¬ 2 * i + 1 ≥ n)
    (j : Nat)
    (hj : j = if 2 * i + 2 < n && less s h (2 * i + 2) (2 * i + 1) then 2 * i + 2
              else 2 * i + 1)
    (hl : less s h j i = true) :
    down s h i n = down s (swap h i j) j n := by
  rw [down, dif_neg hc, ← hj, if_pos hl]

theorem down_eq_stop (s : Store) (h : List Nat) (i n : Nat) (hc : ¬ 2 * i + 1 ≥ n)
    (j : Nat)
    (hj : j = if 2 * i + 2 < n && less s h (2 * i + 2) (2 * i + 1) then 2 * i + 2
              else 2 * i + 1)
    (hl : ¬ less s h j i = true) :
    down s h i n = (h, i) := by
  rw [down, dif_neg hc, ← hj, if_neg hl]

theorem down_length (s : Store) (h : List Nat) (i n : Nat) :
    (down s h i n).1.length = h.length := by
  induction h, i, n using down.induct s with
  | case1 h i n hc => rw [down_eq_leaf s h i n hc]
  | case2 h i n hc j hl ih => rw [down_eq_rec s h i n hc j rfl hl, ih, swap_length]
  | case3 h i n hc j hl => rw [down_eq_stop s h i n hc j rfl hl]

theorem down_getD_ge (s : Store) (h : List Nat) (i n : Nat) {k : Nat} (hk : n ≤ k) :
    (down s h i n).1.getD k 0 = h.getD k 0 := by
  induction h, i, n using down.induct s with
  | case1 h i n hc => rw [down_eq_leaf s h i n hc]
  | case2 h i n hc j hl ih =>
    have hj2 : j = if 2 * i + 2 < n && less s h (2 * i + 2) (2 * i + 1) then 2 * i + 2
        else 2 * i + 1 := rfl
    have hjn : j < n := by
      rw [hj2]
      split
      · next hb =>
        simp only [Bool.and_eq_true, decide_eq_true_eq] at hb
        omega
      · omega
    rw [down_eq_rec s h i n hc j rfl hl, ih hk,
      swap_getD_of_ne h (by omega) (by omega)]
  | case3 h i n hc j hl => rw [down_eq_stop s h i n hc j rfl hl]

theorem down_perm (s : Store) (h : List Nat) (i n : Nat) (hn : n ≤ h.length) :
    List.Perm (down s h i n).1 h := by
  induction h, i, n using down.induct s with
  | case1 h i n hc => rw [down_eq_leaf s h i n hc]
  | case2 h i n hc j hl ih =>
    have hj2 : j = if 2 * i + 2 < n && less s h (2 * i + 2) (2 * i + 1) then 2 * i + 2
        else 2 * i + 1 := rfl
    have hjn : j < n := by
      rw [hj2]
      split
      · next hb =>
        simp only [Bool.and_eq_true, decide_eq_true_eq] at hb
        omega
      · omega
    rw [down_eq_rec s h i n hc j rfl hl]
    exact (ih (by rw [swap_length]; omega)).trans (swap_perm h (by omega) (by omega))
  | case3 h i n hc j hl => rw [down_eq_stop s h i n hc j rfl hl]

theorem less_iff (s : Store) (h : List Nat) (i j : Nat) :
    less s h i j = true ↔ key s (h.getD i 0) < key s (h.getD j 0) := by
  simp [less, pqueue.Min]

theorem less_false_iff (s : Store) (h : List Nat) (i j : Nat) :
    less s h i j = false ↔ key s (h.getD j 0) ≤ key s (h.getD i 0) := by
  simp [less, pqueue.Min]

theorem up_heapy (s : Store) (n : Nat) (h : List Nat) (j : Nat)
    (hn : n ≤ h.length) (hj : j < n)
    (Hexc : ∀ k, k < n → 1 ≤ k → k ≠ j →
      key s (h.getD ((k - 1) / 2) 0) ≤ key s (h.getD k 0))
    (Hpatch : 1 ≤ j → ∀ c, c < n → (c - 1) / 2 = j →
      key s (h.getD ((j - 1) / 2) 0) ≤ key s (h.getD c 0)) :
    HeapD (key s) (up s h j) n := by
  revert hn hj Hexc Hpatch
  induction h, j using up.induct s with
  | case1 h j hc =>
    intro hn hj Hexc Hpatch
    rw [up_eq_stop s h j hc]
    simp only [Bool.or_eq_true, beq_iff_eq, Bool.not_eq_true'] at hc
    intro k hkn hk1
    rcases hc with hc | hc
    · have hj0 : j = 0 := by
        have := Nat.div_le_self (j - 1) 2
        omega
      exact Hexc k hkn hk1 (by omega)
    · by_cases hkj : k = j
      · subst hkj
        exact (less_false_iff s h k ((k - 1) / 2)).mp hc
      · exact Hexc k hkn hk1 hkj
  | case2 h j hc ih =>
    intro hn hj Hexc Hpatch
    have hne : (j - 1) / 2 ≠ j := by
      intro he
      exact hc (by simp [he])
    have hlt : less s h j ((j - 1) / 2) = true := by
      cases he : less s h j ((j - 1) / 2)
      · exact absurd (by simp [he]) hc
      · rfl
    set i := (j - 1) / 2 with hidef
    have hj1 : 1 ≤ j := by
      rcases Nat.eq_zero_or_pos j with rfl | hp
      · exact absurd hidef.symm hne
      · exact hp
    have hij : i < j := by
      have := Nat.div_le_self (j - 1) 2
      omega
    have hjlen : j < h.length := lt_of_lt_of_le hj hn
    have hilen : i < h.length := lt_trans hij hjlen
    have hlt' : key s (h.getD j 0) < key s (h.getD i 0) := (less_iff s h j i).mp hlt
    rw [up_eq_rec s h j hc]
    have hswJ : (swap h i j).getD j 0 = h.getD i 0 := swap_getD_right h hjlen
    have hswI : (swap h i j).getD i 0 = h.getD j 0 := swap_getD_left h hilen (by omega)
    have hswO : ∀ m, m ≠ i → m ≠ j → (swap h i j).getD m 0 = h.getD m 0 := by
      intro m h1 h2
      exact swap_getD_of_ne h h1 h2
    apply ih
    · rw [swap_length]
      exact hn
    · omega
    · intro k hkn hk1 hki
      by_cases hkj : k = j
      · subst hkj
        rw [← hidef, hswI, hswJ]
        exact le_of_lt hlt'
      · by_cases hpkj : (k - 1) / 2 = j
        · rw [hswO k hki hkj, hpkj, hswJ]
          exact Hpatch hj1 k hkn hpkj
        · by_cases hpki : (k - 1) / 2 = i
          · rw [hswO k hki hkj, hpki, hswI]
            have h2 := Hexc k hkn hk1 hkj
            rw [hpki] at h2
            exact le_trans (le_of_lt hlt') h2
          · rw [hswO k hki hkj, hswO _ hpki hpkj]
            exact Hexc k hkn hk1 hkj
    · intro hi1 c hcn hpc
      have hparlt : (i - 1) / 2 < i := by
        have := Nat.div_le_self (i - 1) 2
        omega
      rw [hswO _ (by omega) (by omega)]
      by_cases hcj : c = j
      · subst hcj
        rw [hswJ]
        exact Hexc i (by omega) hi1 (by omega)
      · have hci : c ≠ i := by omega
        rw [hswO c hci hcj]
        have h1 : key s (h.getD ((i - 1) / 2) 0) ≤ key s (h.getD i 0) :=
          Hexc i (by omega) hi1 (by omega)
        have h2 := Hexc c hcn (by omega) hcj
        rw [hpc] at h2
        exact le_trans h1 h2

theorem down_heapy (s : Store) (n : Nat) (h : List Nat) (i : Nat)
    (hn : n ≤ h.length)
    (DE : ∀ k, k < n → 1 ≤ k → (k - 1) / 2 ≠ i →
      key s (h.getD ((k - 1) / 2) 0) ≤ key s (h.getD k 0))
    (DP : 1 ≤ i → ∀ c, c < n → (c - 1) / 2 = i →
      key s (h.getD ((i - 1) / 2) 0) ≤ key s (h.getD c 0)) :
    HeapD (key s) (down s h i n).1 n := by
  revert hn DE DP
  induction h, i, n using down.induct s with
  | case1 h i n hc =>
    intro hn DE DP
    rw [down_eq_leaf s h i n hc]
    intro k hkn hk1
    by_cases hpki : (k - 1) / 2 = i
    · omega
    · exact DE k hkn hk1 hpki
  | case2 h i n hc j hl ih =>
    intro hn DE DP
    have hj2 : j = if 2 * i + 2 < n && less s h (2 * i + 2) (2 * i + 1) then 2 * i + 2
        else 2 * i + 1 := rfl
    have hjb : 2 * i + 1 ≤ j ∧ j ≤ 2 * i + 2 := by
      rw [hj2]
      split <;> omega
    have hjn : j < n := by
      rw [hj2]
      split
      · next hb =>
        simp only [Bool.and_eq_true, decide_eq_true_eq] at hb
        omega
      · omega
    have hij : i < j := by omega
    have hjlen : j < h.length := lt_of_lt_of_le hjn hn
    have hilen : i < h.length := lt_trans hij hjlen
    have hpj : (j - 1) / 2 = i := by omega
    have hl' : key s (h.getD j 0) < key s (h.getD i 0) := (less_iff s h j i).mp hl
    have hjd : (j = 2 * i + 2 ∧ 2 * i + 2 < n ∧ less s h (2 * i + 2) (2 * i + 1) = true) ∨
        (j = 2 * i + 1 ∧ (2 * i + 2 < n → less s h (2 * i + 2) (2 * i + 1) = false)) := by
      rw [hj2]
      split
      · next hb =>
        simp only [Bool.and_eq_true, decide_eq_true_eq] at hb
        exact Or.inl ⟨rfl, hb.1, hb.2⟩
      · next hb =>
        refine Or.inr ⟨rfl, ?_⟩
        intro hlt2
        cases he : less s h (2 * i + 2) (2 * i + 1)
        · rfl
        · exact absurd (by simp [he, hlt2]) hb
    have hmin : ∀ k, k < n → 1 ≤ k → (k - 1) / 2 = i → k ≠ j →
        key s (h.getD j 0) ≤ key s (h.getD k 0) := by
      intro k hkn hk1a hpki hkj
      have hk12 : k = 2 * i + 1 ∨ k = 2 * i + 2 := by omega
      rcases hjd with ⟨hje, hlt3⟩ | ⟨hje, himp⟩
      · have hkk : k = 2 * i + 1 := by omega
        subst hkk
        rw [hje]
        exact le_of_lt ((less_iff s h _ _).mp hlt3.2)
      · have hkk : k = 2 * i + 2 := by omega
        subst hkk
        rw [hje]
        exact (less_false_iff s h _ _).mp (himp (by omega))
    rw [down_eq_rec s h i n hc j rfl hl]
    have hswJ : (swap h i j).getD j 0 = h.getD i 0 := swap_getD_right h hjlen
    have hswI : (swap h i j).getD i 0 = h.getD j 0 := swap_getD_left h hilen (by omega)
    have hswO : ∀ m, m ≠ i → m ≠ j → (swap h i j).getD m 0 = h.getD m 0 := by
      intro m h1 h2
      exact swap_getD_of_ne h h1 h2
    apply ih
    · rw [swap_length]
      exact hn
    · intro k hkn hk1 hpkj
      by_cases hkj : k = j
      · subst hkj
        rw [hpj, hswI, hswJ]
        exact le_of_lt hl'
      · by_cases hki : k = i
        · subst hki
          have hk1' : 1 ≤ k := hk1
          have hparlt : (k - 1) / 2 < k := by
            have := Nat.div_le_self (k - 1) 2
            omega
          rw [hswO _ (by omega) (by omega), hswI]
          have := DP hk1 j hjn hpj
          exact this
        · by_cases hpki : (k - 1) / 2 = i
          · rw [hswO k hki hkj, hpki, hswI]
            exact hmin k hkn hk1 hpki hkj
          · rw [hswO k hki hkj, hswO _ hpki hpkj]
            exact DE k hkn hk1 hpki
    · intro hj1 c hcn hpc
      have hcj : c ≠ j := by omega
      have hci : c ≠ i := by omega
      rw [hpj, hswI, hswO c hci hcj]
      have := DE c hcn (by omega) (by omega)
      rw [hpc] at this
      exact this
  | case3 h i n hc j hl =>
    intro hn DE DP
    have hj2 : j = if 2 * i + 2 < n && less s h (2 * i + 2) (2 * i + 1) then 2 * i + 2
        else 2 * i + 1 := rfl
    have hjb : 2 * i + 1 ≤ j ∧ j ≤ 2 * i + 2 := by
      rw [hj2]
      split <;> omega
    have hjn : j < n := by
      rw [hj2]
      split
      · next hb =>
        simp only [Bool.and_eq_true, decide_eq_true_eq] at hb
        omega
      · omega
    have hlef : less s h j i = false := by
      cases he : less s h j i
      · rfl
      · exact absurd he hl
    have hle : key s (h.getD i 0) ≤ key s (h.getD j 0) :=
      (less_false_iff s h j i).mp hlef
    have hjd : (j = 2 * i + 2 ∧ 2 * i + 2 < n ∧ less s h (2 * i + 2) (2 * i + 1) = true) ∨
        (j = 2 * i + 1 ∧ (2 * i + 2 < n → less s h (2 * i + 2) (2 * i + 1) = false)) := by
      rw [hj2]
      split
      · next hb =>
        simp only [Bool.and_eq_true, decide_eq_true_eq] at hb
        exact Or.inl ⟨rfl, hb.1, hb.2⟩
      · next hb =>
        refine Or.inr ⟨rfl, ?_⟩
        intro hlt2
        cases he : less s h (2 * i + 2) (2 * i + 1)
        · rfl
        · exact absurd (by simp [he, hlt2]) hb
    have hmin : ∀ k, k < n → 1 ≤ k → (k - 1) / 2 = i → k ≠ j →
        key s (h.getD j 0) ≤ key s (h.getD k 0) := by
      intro k hkn hk1a hpki hkj
      have hk12 : k = 2 * i + 1 ∨ k = 2 * i + 2 := by omega
      rcases hjd with ⟨hje, hlt3⟩ | ⟨hje, himp⟩
      · have hkk : k = 2 * i + 1 := by omega
        subst hkk
        rw [hje]
        exact le_of_lt ((less_iff s h _ _).mp hlt3.2)
      · have hkk : k = 2 * i + 2 := by omega
        subst hkk
        rw [hje]
        exact (less_false_iff s h _ _).mp (himp (by omega))
    rw [down_eq_stop s h i n hc j rfl hl]
    intro k hkn hk1
    by_cases hpki : (k - 1) / 2 = i
    · rw [hpki]
      by_cases hkj : k = j
      · subst hkj
        exact hle
      · exact le_trans hle (hmin k hkn hk1 hpki hkj)
    · exact DE k hkn hk1 hpki

theorem key_setIndex_funext (s : Store) (a : Nat) (i : Int) :
    key (setIndex s a i) = key s :=
  funext fun b => key_setIndex s a i b

theorem HeapD_congr_getD {pr : Nat → Int} {h h' : List Nat} {n : Nat}
    (hg : ∀ m, m < n → h'.getD m 0 = h.getD m 0) (hH : HeapD pr h n) :
    HeapD pr h' n := by
  intro k hkn hk1
  have hp : (k - 1) / 2 < n := by
    have := Nat.div_le_self (k - 1) 2
    omega
  rw [hg k hkn, hg _ hp]
  exact hH k hkn hk1

theorem root_min {pr : Nat → Int} {h : List Nat} {n : Nat} (hH : HeapD pr h n) :
    ∀ k, k < n → pr (h.getD 0 0) ≤ pr (h.getD k 0) := by
  intro k
  induction k using Nat.strong_induction_on with
  | _ k ih =>
    intro hkn
    rcases Nat.eq_zero_or_pos k with rfl | hk1
    · exact le_refl _
    · have hp : (k - 1) / 2 < k := by
        have := Nat.div_le_self (k - 1) 2
        omega
      exact le_trans (ih _ hp (by omega)) (hH k hkn hk1)

theorem up_zero (s : Store) (h : List Nat) : up s h 0 = h :=
  up_eq_stop s h 0 (by simp)

theorem Remove_zero_eq_Pop (s : Store) (h : List Nat) : Remove s h 0 = Pop s h := by
  unfold Remove Pop
  by_cases hn : h.length = 1
  · rw [if_neg (by omega)]
    rw [hn]
    norm_num
    rw [swap_self, down_eq_leaf s h 0 0 (by omega)]
  · by_cases hn0 : h.length = 0
    · rw [if_neg (by omega), hn0]
      norm_num
      rw [swap_self, down_eq_leaf s h 0 0 (by omega)]
    · rw [if_pos (by omega)]
      show pop s (if (down s (swap h 0 (h.length - 1)) 0 (h.length - 1)).2 ≤ 0 then
          up s (down s (swap h 0 (h.length - 1)) 0 (h.length - 1)).1 0
        else (down s (swap h 0 (h.length - 1)) 0 (h.length - 1)).1) =
        pop s (down s (swap h 0 (h.length - 1)) 0 (h.length - 1)).1
      rcases Nat.lt_or_ge ((down s (swap h 0 (h.length - 1)) 0 (h.length - 1)).2) 1 with hd | hd
      · rw [if_pos (by omega), up_zero]
      · rw [if_neg (by omega)]

theorem Pop_ret (s : Store) (h : List Nat) (hne : h ≠ []) :
    (Pop s h).2.2 = h.getD 0 0 := by
  have hn1 : 1 ≤ h.length := List.length_pos.mpr hne
  show (pop s (down s (swap h 0 (h.length - 1)) 0 (h.length - 1)).1).2.2 = h.getD 0 0
  unfold pop
  rw [down_length, swap_length, down_getD_ge s _ _ _ (le_refl _),
    swap_getD_right h (by omega)]

theorem Pop_store (s : Store) (h : List Nat) (hne : h ≠ []) :
    (Pop s h).1 = setIndex s (h.getD 0 0) (-1) := by
  have hn1 : 1 ≤ h.length := List.length_pos.mpr hne
  show (pop s (down s (swap h 0 (h.length - 1)) 0 (h.length - 1)).1).1 = _
  unfold pop
  rw [down_length, swap_length, down_getD_ge s _ _ _ (le_refl _),
    swap_getD_right h (by omega)]

theorem Pop_key (s : Store) (h : List Nat) : key (Pop s h).1 = key s := by
  show key (pop s _).1 = key s
  unfold pop
  exact key_setIndex_funext s _ _

theorem Pop_heap_length (s : Store) (h : List Nat) :
    (Pop s h).2.1.length = h.length - 1 := by
  show (pop s (down s (swap h 0 (h.length - 1)) 0 (h.length - 1)).1).2.1.length = _
  unfold pop
  simp only [List.length_dropLast, down_length, swap_length]

theorem Pop_perm_tail (s : Store) (h : List Nat) (hne : h ≠ []) :
    List.Perm (Pop s h).2.1 h.tail := by
  obtain ⟨x, t, rfl⟩ := List.exists_cons_of_ne_nil hne
  set h0 : List Nat := x :: t with hh0
  have hn1 : 1 ≤ h0.length := by simp [hh0]
  have hperm : List.Perm (down s (swap h0 0 (h0.length - 1)) 0 (h0.length - 1)).1 h0 := by
    refine (down_perm s _ 0 (h0.length - 1) (by rw [swap_length]; omega)).trans ?_
    exact swap_perm h0 (by omega) (by omega)
  set h2 : List Nat := (down s (swap h0 0 (h0.length - 1)) 0 (h0.length - 1)).1 with hh2
  have hlen2 : h2.length = h0.length := by rw [hh2, down_length, swap_length]
  have h2ne : h2 ≠ [] := by
    intro he
    rw [he] at hlen2
    simp [hh0] at hlen2
  have hlast : h2.getLast h2ne = x := by
    rw [List.getLast_eq_getElem]
    have : h2.getD (h2.length - 1) 0 = h2[h2.length - 1] :=
      List.getD_eq_getElem h2 0 (by omega)
    rw [← this, hlen2, hh2, down_getD_ge s _ _ _ (le_refl _),
      swap_getD_right h0 (by omega)]
    rfl
  have hdec : h2.dropLast ++ [x] = h2 := by
    conv_rhs => rw [← List.dropLast_concat_getLast h2ne]
    rw [hlast]
  show List.Perm (pop s h2).2.1 t
  unfold pop
  have hp2 : List.Perm (h2.dropLast ++ [x]) (x :: t) := by
    rw [hdec]
    exact hperm
  have hp3 : List.Perm (x :: h2.dropLast) (x :: t) :=
    (List.perm_append_singleton x h2.dropLast).symm.trans hp2
  exact hp3.cons_inv

theorem Pop_heapy (s : Store) (h : List Nat) (hH : HeapD (key s) h h.length) :
    HeapD (key (Pop s h).1) (Pop s h).2.1 ((Pop s h).2.1.length) := by
  rw [Pop_key, Pop_heap_length]
  set h1 : List Nat := swap h 0 (h.length - 1) with hh1
  have hd : HeapD (key s) (down s h1 0 (h.length - 1)).1 (h.length - 1) := by
    apply down_heapy
    · rw [hh1, swap_length]
      omega
    · intro k hkn hk1 hpk
      have hpklt : (k - 1) / 2 < k := by
        have := Nat.div_le_self (k - 1) 2
        omega
      rw [hh1, swap_getD_of_ne h (by omega) (by omega),
        swap_getD_of_ne h (by omega) (by omega)]
      exact hH k (by omega) hk1
    · intro h10
      omega
  show HeapD (key s) (pop s (down s h1 0 (h.length - 1)).1).2.1 (h.length - 1)
  apply HeapD_congr_getD _ hd
  intro m hm
  have hlen : (down s h1 0 (h.length - 1)).1.length = h.length := by
    rw [down_length, hh1, swap_length]
  show ((down s h1 0 (h.length - 1)).1.dropLast).getD m 0 =
    (down s h1 0 (h.length - 1)).1.getD m 0
  rw [List.getD_eq_getElem _ 0 (by simp only [List.length_dropLast, hlen]; omega),
    List.getD_eq_getElem _ 0 (by omega)]
  exact List.getElem_dropLast ..

theorem Push_key (s : Store) (h : List Nat) (a : Nat) :
    key (Push s h a).1 = key s := by
  show key (setIndex s a (Int.ofNat h.length)) = key s
  exact key_setIndex_funext s a _

theorem Push_length (s : Store) (h : List Nat) (a : Nat) :
    (Push s h a).2.length = h.length + 1 := by
  show (up _ (h ++ [a]) h.length).length = h.length + 1
  rw [up_length]
  simp

theorem Push_perm (s : Store) (h : List Nat) (a : Nat) :
    List.Perm (Push s h a).2 (h ++ [a]) := by
  show List.Perm (up _ (h ++ [a]) h.length) (h ++ [a])
  exact up_perm _ (h ++ [a]) h.length (by simp)

theorem Push_heapy (s : Store) (h : List Nat) (a : Nat)
    (hH : HeapD (key s) h h.length) :
    HeapD (key (Push s h a).1) (Push s h a).2 (h.length + 1) := by
  rw [Push_key]
  show HeapD (key s) (up (setIndex s a (Int.ofNat h.length)) (h ++ [a]) h.length) _
  have hk : key (setIndex s a (Int.ofNat h.length)) = key s :=
    key_setIndex_funext s a _
  rw [← hk]
  apply up_heapy
  · simp
  · omega
  · intro k hkn hk1 hkj
    have hklt : k < h.length := by omega
    have hpklt : (k - 1) / 2 < h.length := by
      have := Nat.div_le_self (k - 1) 2
      omega
    rw [List.getD_append _ _ _ _ hklt, List.getD_append _ _ _ _ hpklt, hk]
    exact hH k hklt hk1
  · intro hj1 c hcn hpc
    omega

theorem popList_spec : ∀ (k : Nat) (s : Store) (h : List Nat),
    h.length = k → HeapD (key s) h k →
    List.Perm (popList s h k) h ∧
    ((popList s h k).map (key s)).Sorted (· ≤ ·) := by
  intro k
  induction k with
  | zero =>
    intro s h hlen _
    have : h = [] := List.length_eq_zero.mp hlen
    subst this
    exact ⟨List.Perm.refl _, List.sorted_nil⟩
  | succ k ih =>
    intro s h hlen hH
    have hne : h ≠ [] := by
      intro he
      rw [he] at hlen
      simp at hlen
    have hret := Pop_ret s h hne
    have hkey := Pop_key s h
    have hlen2 : (Pop s h).2.1.length = k := by
      rw [Pop_heap_length, hlen]
      omega
    have hheapy : HeapD (key (Pop s h).1) (Pop s h).2.1 k := by
      have hp := Pop_heapy s h (hlen ▸ hH)
      rwa [hlen2] at hp
    obtain ⟨hperm, hsort⟩ := ih (Pop s h).1 (Pop s h).2.1 hlen2 hheapy
    rw [hkey] at hsort
    have htail := Pop_perm_tail s h hne
    have hunfold : popList s h (k + 1) =
        (Pop s h).2.2 :: popList (Pop s h).1 (Pop s h).2.1 k := rfl
    rw [hunfold]
    constructor
    · rw [hret]
      have hpt : List.Perm (popList (Pop s h).1 (Pop s h).2.1 k) h.tail :=
        hperm.trans htail
      obtain ⟨x, t, rfl⟩ := List.exists_cons_of_ne_nil hne
      exact hpt.cons x
    · rw [List.map_cons, List.sorted_cons]
      refine ⟨?_, hsort⟩
      intro b hb
      obtain ⟨c, hc, rfl⟩ := List.mem_map.mp hb
      have hcmem : c ∈ h :=
        List.mem_of_mem_tail ((hperm.trans htail).subset hc)
      obtain ⟨m, hm, hcm⟩ := List.mem_iff_getElem.mp hcmem
      have hmin := root_min (hlen ▸ hH) m (by omega)
      rw [List.getD_eq_getElem _ 0 hm, hcm] at hmin
      rw [hret]
      exact hmin

theorem pushAll_spec : ∀ (as : List Nat) (s : Store) (h : List Nat),
    HeapD (key s) h h.length →
    key (pushAll s h as).1 = key s ∧
    List.Perm (pushAll s h as).2 (h ++ as) ∧
    HeapD (key (pushAll s h as).1) (pushAll s h as).2 (pushAll s h as).2.length := by
  intro as
  induction as with
  | nil =>
    intro s h hH
    refine ⟨rfl, ?_, hH⟩
    show List.Perm h (h ++ [])
    rw [List.append_nil]
  | cons a as ih =>
    intro s h hH
    have hstep := Push_heapy s h a hH
    have hlen := Push_length s h a
    obtain ⟨hkey, hperm, hheapy⟩ := ih (Push s h a).1 (Push s h a).2
      (by rw [hlen]; exact hstep)
    have hunfold : pushAll s h (a :: as) = pushAll (Push s h a).1 (Push s h a).2 as := rfl
    rw [hunfold]
    refine ⟨?_, ?_, hheapy⟩
    · rw [hkey, Push_key]
    · refine hperm.trans ?_
      refine ((Push_perm s h a).append_right as).trans ?_
      rw [List.append_assoc]
      exact List.Perm.refl _

theorem map_key_range (ps : List Int) :
    (List.range ps.length).map (key (ps.map (fun p => Item.mk 0 p 0))) = ps := by
  apply List.ext_getElem
  · simp
  · intro n h1 h2
    simp only [List.getElem_map, List.getElem_range]
    show (getItem (ps.map (fun p => Item.mk 0 p 0)) n).priority = ps[n]
    unfold getItem
    rw [List.getD_eq_getElem _ _ (by simpa using h2)]
    simp

/-- Claim C1 is false of the code: `swap` does not write the two swapped
items' `Index` fields, so after operations that sift, an item's `Index` no
longer equals its heap position.  Here two items with priorities 5 and 3 are
pushed; the sift-up swap puts the second item (store address 1) at heap
position 0, yet its `index` field still reads 1, and the first item sits at
position 1 with `index` 0.  (`Push` itself and the pop sentinel behave as
specified; the swap omission is the slip.) -/
theorem c1_swap_index_bug :
    (Push (Push [⟨0, 5, 0⟩, ⟨1, 3, 0⟩] [] 0).1 (Push [⟨0, 5, 0⟩, ⟨1, 3, 0⟩] [] 0).2 1).2
        = [1, 0] ∧
    (getItem (Push (Push [⟨0, 5, 0⟩, ⟨1, 3, 0⟩] [] 0).1
        (Push [⟨0, 5, 0⟩, ⟨1, 3, 0⟩] [] 0).2 1).1 1).index = 1 ∧
    (getItem (Push (Push [⟨0, 5, 0⟩, ⟨1, 3, 0⟩] [] 0).1
        (Push [⟨0, 5, 0⟩, ⟨1, 3, 0⟩] [] 0).2 1).1 0).index = 0 ∧
    (∀ (h : List Nat) (i j : Nat), swap h i j = (h.set i (h.getD j 0)).set j (h.getD i 0)) := by
  refine ⟨?_, ?_, ?_, fun h i j => rfl⟩ <;>
    simp [Push, up, swap, less, key, pqueue.Min, setIndex, getItem]

/-- Claim C7: `PeekAndShift` returns nothing and leaves the heap (and store)
unchanged when the heap is empty or the predicate holds of the head's
priority; otherwise it removes the head (the remaining heap is a permutation
of the tail) and returns it; and for the sweeps' predicate `p > t` the head
is yielded exactly when its priority is at most `t`. -/
theorem c7_PeekAndShift_spec (s : Store) (h : List Nat) (comp : Int → Bool) (t : Int) :
    (h = [] → PeekAndShift s h comp = (s, h, none)) ∧
    (h ≠ [] → comp (key s (h.getD 0 0)) = true →
      PeekAndShift s h comp = (s, h, none)) ∧
    (h ≠ [] → comp (key s (h.getD 0 0)) = false →
      (PeekAndShift s h comp).2.2 = some (h.getD 0 0) ∧
      List.Perm (PeekAndShift s h comp).2.1 h.tail) ∧
    (h ≠ [] →
      ((PeekAndShift s h (fun p => decide (t < p))).2.2 = some (h.getD 0 0) ↔
        key s (h.getD 0 0) ≤ t)) := by
  have hshow : PeekAndShift s h comp =
      if h.length = 0 then (s, h, none)
      else if comp (key s (h.getD 0 0)) = true then (s, h, none)
      else ((Remove s h 0).1, (Remove s h 0).2.1, some (h.getD 0 0)) := rfl
  refine ⟨?_, ?_, ?_, ?_⟩
  · intro he
    subst he
    rfl
  · intro hne hcomp
    rw [hshow, if_neg (by simpa using hne), if_pos hcomp]
  · intro hne hcomp
    rw [hshow, if_neg (by simpa using hne), if_neg (by rw [hcomp]; simp)]
    refine ⟨rfl, ?_⟩
    show List.Perm (Remove s h 0).2.1 h.tail
    rw [Remove_zero_eq_Pop]
    exact Pop_perm_tail s h hne
  · intro hne
    have hshow2 : PeekAndShift s h (fun p => decide (t < p)) =
        if h.length = 0 then (s, h, none)
        else if (decide (t < key s (h.getD 0 0))) = true then (s, h, none)
        else ((Remove s h 0).1, (Remove s h 0).2.1, some (h.getD 0 0)) := rfl
    constructor
    · intro hsome
      by_contra hgt
      rw [hshow2, if_neg (by simpa using hne), if_pos (by simpa using not_le.mp hgt)]
        at hsome
      simp at hsome
    · intro hle
      rw [hshow2, if_neg (by simpa using hne), if_neg (by simpa using not_lt.mpr hle)]

/-- Witness for C7 at a concrete input: a one-element heap whose head has
priority 5 is yielded by a sweep with threshold 9. -/
theorem c7_PeekAndShift_spec_witness :
    (PeekAndShift [⟨7, 5, 0⟩] [0] (fun p => decide (9 < p))).2.2 = some 0 ∧
    List.Perm (PeekAndShift [⟨7, 5, 0⟩] [0] (fun p => decide (9 < p))).2.1 [] := by
  have hc := (c7_PeekAndShift_spec [⟨7, 5, 0⟩] [0] (fun p => decide (9 < p)) 9).2.2.1
    (by simp) (by decide)
  exact hc

/-- Claim C8: pushing `n` items and popping `n` times yields the items'
priorities in non-decreasing order (and exactly the multiset that was
pushed).  The items live in a store whose address `a` holds priority
`ps[a]`; `pushAll` pushes the addresses in order and `popList` collects the
popped addresses. -/
theorem c8_push_pop_sorted (ps : List Int) :
    ((popList (pushAll (ps.map (fun p => Item.mk 0 p 0)) [] (List.range ps.length)).1
        (pushAll (ps.map (fun p => Item.mk 0 p 0)) [] (List.range ps.length)).2
        ps.length).map
      (key (pushAll (ps.map (fun p => Item.mk 0 p 0)) [] (List.range ps.length)).1)).Sorted
        (· ≤ ·) ∧
    List.Perm
      ((popList (pushAll (ps.map (fun p => Item.mk 0 p 0)) [] (List.range ps.length)).1
        (pushAll (ps.map (fun p => Item.mk 0 p 0)) [] (List.range ps.length)).2
        ps.length).map
        (key (pushAll (ps.map (fun p => Item.mk 0 p 0)) [] (List.range ps.length)).1))
      ps := by
  set s : Store := ps.map (fun p => Item.mk 0 p 0) with hs
  obtain ⟨hkey, hperm, hheapy⟩ := pushAll_spec (List.range ps.length) s []
    (by intro j hj; simp at hj)
  set r := pushAll s [] (List.range ps.length) with hr
  have hlen : r.2.length = ps.length := by
    rw [hperm.length_eq]
    simp
  obtain ⟨hperm2, hsort⟩ := popList_spec ps.length r.1 r.2 hlen (by rw [← hlen]; exact hheapy)
  refine ⟨hsort, ?_⟩
  have hmap : List.Perm ((popList r.1 r.2 ps.length).map (key r.1))
      (r.2.map (key r.1)) := hperm2.map _
  refine hmap.trans ?_
  have hmap2 : List.Perm (r.2.map (key r.1)) (((List.range ps.length) : List Nat).map (key r.1)) := by
    refine List.Perm.map _ ?_
    simpa using hperm
  refine hmap2.trans ?_
  rw [hkey, hs, map_key_range]

end pqueue

namespace pqueue

theorem pop_store_key (s : Store) (h : List Nat) : key (pop s h).1 = key s :=
  key_setIndex_funext s _ _

theorem pop_store_val (s : Store) (h : List Nat) (x : Nat) :
    (getItem (pop s h).1 x).val = (getItem s x).val :=
  val_setIndex s _ _ x

theorem pop_store_length (s : Store) (h : List Nat) :
    (pop s h).1.length = s.length :=
  setIndex_length s _ _

theorem Remove_store_key (s : Store) (h : List Nat) (i : Nat) :
    key (Remove s h i).1 = key s := by
  simp only [Remove]
  split
  · exact pop_store_key s _
  · exact pop_store_key s h

theorem Remove_store_val (s : Store) (h : List Nat) (i x : Nat) :
    (getItem (Remove s h i).1 x).val = (getItem s x).val := by
  simp only [Remove]
  split
  · exact pop_store_val s _ x
  · exact pop_store_val s h x

theorem Remove_store_length (s : Store) (h : List Nat) (i : Nat) :
    (Remove s h i).1.length = s.length := by
  simp only [Remove]
  split
  · exact pop_store_length s _
  · exact pop_store_length s h

theorem Push_store_val (s : Store) (h : List Nat) (a x : Nat) :
    (getItem (Push s h a).1 x).val = (getItem s x).val :=
  val_setIndex s a _ x

theorem Push_store_length (s : Store) (h : List Nat) (a : Nat) :
    (Push s h a).1.length = s.length :=
  setIndex_length s a _

theorem getItem_append_self (s : Store) (it : Item) :
    getItem (s ++ [it]) s.length = it := by
  unfold getItem
  rw [List.getD_eq_getElem _ _ (by simp)]
  simp

theorem getItem_append_lt (s : Store) (it : Item) {x : Nat} (hx : x < s.length) :
    getItem (s ++ [it]) x = getItem s x := by
  unfold getItem
  rw [List.getD_append _ _ _ _ hx]

end pqueue

namespace nsqd

theorem put_cases (c : Chan) (a : Nat) :
    (c.memoryMsgChan.length < c.memQueueSize ∧
      c.put a = ({ c with memoryMsgChan := c.memoryMsgChan ++ [a] }, none)) ∨
    (¬ c.memoryMsgChan.length < c.memQueueSize ∧ c.backendFail = true ∧
      c.put a = (c, some ChanErr.backendErr)) ∨
    (¬ c.memoryMsgChan.length < c.memQueueSize ∧ c.backendFail = false ∧
      c.put a = ({ c with backend := c.backend ++ [a] }, none)) := by
  unfold Chan.put
  by_cases h1 : c.memoryMsgChan.length < c.memQueueSize
  · exact Or.inl ⟨h1, by rw [if_pos h1]⟩
  · by_cases h2 : c.backendFail
    · exact Or.inr (Or.inl ⟨h1, h2, by rw [if_neg h1, if_pos h2]⟩)
    · exact Or.inr (Or.inr ⟨h1, by simpa using h2, by rw [if_neg h1, if_neg h2]⟩)

theorem put_msgs (c : Chan) (a : Nat) : (c.put a).1.msgs = c.msgs := by
  rcases put_cases c a with ⟨_, hp⟩ | ⟨_, _, hp⟩ | ⟨_, _, hp⟩ <;> rw [hp]

theorem popInFlightMessage_ok (c : Chan) (cid : Int) (id : Nat) (peek : Bool)
    (itemA : Nat) (hlook : c.inFlightMessages.lookup id = some itemA)
    (hown : (getMsg c (pqueue.getItem c.items itemA).val).clientID = cid) :
    c.popInFlightMessage cid id peek =
      ((if peek then c
        else { c with inFlightMessages := c.inFlightMessages.filter (fun p => !(p.1 == id)) }),
       Except.ok itemA) := by
  simp only [Chan.popInFlightMessage, hlook]
  rw [if_neg (by rw [hown]; simp)]
  by_cases hp : peek
  · rw [if_pos hp, if_pos hp]
  · rw [if_neg hp, if_neg hp]

theorem popInFlightMessage_msgs (c : Chan) (cid : Int) (id : Nat) (peek : Bool) :
    (c.popInFlightMessage cid id peek).1.msgs = c.msgs := by
  simp only [Chan.popInFlightMessage]
  split
  · rfl
  · split
    · rfl
    · split <;> rfl

theorem removeFromInFlightPQ_msgs (c : Chan) (itemA : Nat) :
    (c.removeFromInFlightPQ itemA).msgs = c.msgs := by
  simp only [Chan.removeFromInFlightPQ]
  split <;> rfl

theorem pushDeferredMessage_msgs (c : Chan) (itemA : Nat) :
    (c.pushDeferredMessage itemA).1.msgs = c.msgs := by
  simp only [Chan.pushDeferredMessage]
  split <;> rfl

theorem StartDeferredTimeout_msgs (c : Chan) (a : Nat) (tmo now : Int) :
    (c.StartDeferredTimeout a tmo now).1.msgs = c.msgs := by
  simp only [Chan.StartDeferredTimeout]
  rcases hm : Chan.pushDeferredMessage
      { c with items := c.items ++ [(⟨a, now + tmo, 0⟩ : pqueue.Item)] }
      c.items.length with ⟨c2, r⟩
  have hc2 : c2.msgs = c.msgs := by
    have h1 := congrArg Prod.fst hm
    have h2 := pushDeferredMessage_msgs
      { c with items := c.items ++ [(⟨a, now + tmo, 0⟩ : pqueue.Item)] } c.items.length
    rw [h1] at h2
    exact h2
  rcases r with _ | e
  · simp only [hm]
    exact hc2
  · simp only [hm]
    exact hc2

/-- Claim C5: under the exit flag `PutMessage` fails with the lifecycle
"exiting" error and changes no state; when it succeeds, `messageCount` and
`Depth` (backlog length plus backend depth) each grow by exactly one. -/
theorem c5_PutMessage_spec (c : Chan) (a : Nat) :
    (c.exitFlag = true → c.PutMessage a = (c, some ChanErr.exiting)) ∧
    (∀ c', c.PutMessage a = (c', none) →
      c'.messageCount = c.messageCount + 1 ∧ c'.Depth = c.Depth + 1) := by
  constructor
  · intro he
    unfold Chan.PutMessage Chan.Exiting
    rw [he]
    rfl
  · intro c' hc'
    unfold Chan.PutMessage Chan.Exiting at hc'
    by_cases he : c.exitFlag
    · rw [if_pos he] at hc'
      exact absurd (congrArg Prod.snd hc') (by simp)
    · rw [if_neg he] at hc'
      rcases put_cases c a with ⟨h1, hp⟩ | ⟨h1, h2, hp⟩ | ⟨h1, h2, hp⟩ <;>
        simp only [hp] at hc'
      · obtain ⟨hc1, -⟩ := (Prod.mk.injEq _ _ _ _).mp hc'
        rw [← hc1]
        refine ⟨rfl, ?_⟩
        show ({ c with memoryMsgChan := c.memoryMsgChan ++ [a], messageCount := c.messageCount + 1 } : Chan).Depth = c.Depth + 1
        unfold Chan.Depth
        simp only [List.length_append, List.length_singleton]
        omega
      · exact absurd (congrArg Prod.snd hc') (by simp)
      · obtain ⟨hc1, -⟩ := (Prod.mk.injEq _ _ _ _).mp hc'
        rw [← hc1]
        refine ⟨rfl, ?_⟩
        show ({ c with backend := c.backend ++ [a], messageCount := c.messageCount + 1 } : Chan).Depth = c.Depth + 1
        unfold Chan.Depth
        simp only [List.length_append, List.length_singleton]
        omega

/-- Witness for C5 at concrete inputs: an exiting channel rejects the put
and is unchanged; a fresh channel of capacity 1 accepts it, and the theorem
yields the two increments. -/
theorem c5_PutMessage_spec_witness :
    ({ NewChannel 1 100 false with exitFlag := true } : Chan).PutMessage 0 =
      ({ NewChannel 1 100 false with exitFlag := true }, some ChanErr.exiting) ∧
    ((NewChannel 1 100 false).PutMessage 0).1.messageCount =
      (NewChannel 1 100 false).messageCount + 1 ∧
    ((NewChannel 1 100 false).PutMessage 0).1.Depth = (NewChannel 1 100 false).Depth + 1 := by
  refine ⟨(c5_PutMessage_spec _ 0).1 rfl, ?_⟩
  have h1 : (NewChannel 1 100 false).PutMessage 0 =
      (((NewChannel 1 100 false).PutMessage 0).1, none) := by rfl
  exact (c5_PutMessage_spec (NewChannel 1 100 false) 0).2 _ h1

/-- Claim C10: `PutMessageDeferred` increments `messageCount` unconditionally
and discards the result of `StartDeferredTimeout`: when the message id is
already in the deferred map, nothing is scheduled (deferred map and heap are
unchanged), the caller receives no error indication (the function returns
only the updated state), and `messageCount` has still been incremented. -/
theorem c10_PutMessageDeferred_spec (c : Chan) (a : Nat) (tmo now : Int) :
    (c.PutMessageDeferred a tmo now).messageCount = c.messageCount + 1 ∧
    ((c.deferredMessages.lookup (getMsg c a).ID).isSome = true →
      (c.PutMessageDeferred a tmo now).deferredMessages = c.deferredMessages ∧
      (c.PutMessageDeferred a tmo now).deferredPQ = c.deferredPQ) := by
  simp only [Chan.PutMessageDeferred, Chan.StartDeferredTimeout, Chan.pushDeferredMessage]
  rw [show ({ c with messageCount := c.messageCount + 1 } : Chan).items = c.items from rfl]
  rw [pqueue.getItem_append_self]
  rw [show ({ val := a, priority := now + tmo, index := 0 } : pqueue.Item).val = a from rfl]
  rw [show getMsg { c with messageCount := c.messageCount + 1, items := c.items ++ [(⟨a, now + tmo, 0⟩ : pqueue.Item)] } a = getMsg c a from rfl]
  rw [show ({ c with messageCount := c.messageCount + 1, items := c.items ++ [(⟨a, now + tmo, 0⟩ : pqueue.Item)] } : Chan).deferredMessages = c.deferredMessages from rfl]
  rcases hl : c.deferredMessages.lookup (getMsg c a).ID with _ | x
  · refine ⟨rfl, ?_⟩
    intro hs
    simp at hs
  · exact ⟨rfl, fun _ => ⟨rfl, rfl⟩⟩

/-- Witness for C10 at a concrete input: the id 1 is already deferred, the
map and heap stay as they were, and `messageCount` still went up. -/
theorem c10_PutMessageDeferred_spec_witness :
    (({ NewChannel 4 100 false with
        msgs := [⟨1, 0, 0, 0⟩], items := [⟨0, 50, 0⟩], deferredMessages := [(1, 0)],
        deferredPQ := [0] } : Chan).PutMessageDeferred 0 10 5).messageCount = 0 + 1 ∧
    (({ NewChannel 4 100 false with
        msgs := [⟨1, 0, 0, 0⟩], items := [⟨0, 50, 0⟩], deferredMessages := [(1, 0)],
        deferredPQ := [0] } : Chan).PutMessageDeferred 0 10 5).deferredMessages = [(1, 0)] ∧
    (({ NewChannel 4 100 false with
        msgs := [⟨1, 0, 0, 0⟩], items := [⟨0, 50, 0⟩], deferredMessages := [(1, 0)],
        deferredPQ := [0] } : Chan).PutMessageDeferred 0 10 5).deferredPQ = [0] := by
  obtain ⟨h1, h2⟩ := c10_PutMessageDeferred_spec
    { NewChannel 4 100 false with
      msgs := [⟨1, 0, 0, 0⟩], items := [⟨0, 50, 0⟩], deferredMessages := [(1, 0)],
      deferredPQ := [0] } 0 10 5
  obtain ⟨h3, h4⟩ := h2 (by decide)
  exact ⟨h1, h3, h4⟩

theorem pushInFlightMessage_msgs (c : Chan) (itemA : Nat) :
    (c.pushInFlightMessage itemA).1.msgs = c.msgs := by
  simp only [Chan.pushInFlightMessage]
  split <;> rfl

theorem StartInFlightTimeout_msgs (c : Chan) (a : Nat) (cid : Int) (tmo now : Int) :
    (c.StartInFlightTimeout a cid tmo now).1.msgs =
      c.msgs.set a { getMsg c a with clientID := cid, deliveryTS := now } := by
  simp only [Chan.StartInFlightTimeout]
  rcases hm : Chan.pushInFlightMessage
      { c with
        msgs := c.msgs.set a { getMsg c a with clientID := cid, deliveryTS := now },
        items := c.items ++ [(⟨a, now + tmo, 0⟩ : pqueue.Item)] }
      c.items.length with ⟨c2, r⟩
  have hc2 : c2.msgs = c.msgs.set a { getMsg c a with clientID := cid, deliveryTS := now } := by
    have h1 := congrArg Prod.fst hm
    have h2 := pushInFlightMessage_msgs
      { c with
        msgs := c.msgs.set a { getMsg c a with clientID := cid, deliveryTS := now },
        items := c.items ++ [(⟨a, now + tmo, 0⟩ : pqueue.Item)] } c.items.length
    rw [h1] at h2
    exact h2
  rcases r with _ | e
  · simp only [hm]
    exact hc2
  · simp only [hm]
    exact hc2

theorem FinishMessage_msgs (c : Chan) (cid : Int) (id : Nat) :
    (c.FinishMessage cid id).1.msgs = c.msgs := by
  simp only [Chan.FinishMessage]
  rcases hm : c.popInFlightMessage cid id false with ⟨c1, r⟩
  have hc1 : c1.msgs = c.msgs := by
    have h1 := congrArg Prod.fst hm
    have h2 := popInFlightMessage_msgs c cid id false
    rw [h1] at h2
    exact h2
  rcases r with e | itemA
  · simp only [hm]
    exact hc1
  · simp only [hm]
    rw [removeFromInFlightPQ_msgs]
    exact hc1

theorem RequeueMessage_msgs (c : Chan) (cid : Int) (id : Nat) (tmo now : Int) :
    (c.RequeueMessage cid id tmo now).1.msgs = c.msgs := by
  simp only [Chan.RequeueMessage]
  rcases hm : c.popInFlightMessage cid id false with ⟨c1, r⟩
  have hc1 : c1.msgs = c.msgs := by
    have h1 := congrArg Prod.fst hm
    have h2 := popInFlightMessage_msgs c cid id false
    rw [h1] at h2
    exact h2
  rcases r with e | itemA
  · simp only [hm]
    exact hc1
  · simp only [hm]
    have hc2 : (c1.removeFromInFlightPQ itemA).msgs = c.msgs := by
      rw [removeFromInFlightPQ_msgs]
      exact hc1
    split
    · split
      · exact hc2
      · rw [put_msgs]
        exact hc2
    · rw [StartDeferredTimeout_msgs]
      exact hc2

/-- Claim C2: a successful `TouchMessage(clientID, id, newTimeout)` on an
in-flight message owned by the caller sets the item's new deadline (its heap
priority, in nanoseconds) to exactly
`min(now + newTimeout, deliveryTS + MaxMsgTimeout)`. -/
theorem c2_TouchMessage_deadline (c : Chan) (cid : Int) (id : Nat) (cto now : Int)
    (itemA msgA : Nat)
    (hlook : c.inFlightMessages.lookup id = some itemA)
    (hval : (pqueue.getItem c.items itemA).val = msgA)
    (hown : (getMsg c msgA).clientID = cid)
    (hitem : itemA < c.items.length) :
    (c.TouchMessage cid id cto now).2 = none ∧
    pqueue.key (c.TouchMessage cid id cto now).1.items itemA =
      min (now + cto) ((getMsg c msgA).deliveryTS + c.maxMsgTimeout) := by
  have hpop := popInFlightMessage_ok c cid id true itemA hlook (by rw [hval]; exact hown)
  rw [if_pos rfl] at hpop
  constructor
  · simp only [Chan.TouchMessage, hpop]
  · simp only [Chan.TouchMessage, hpop]
    rw [hval]
    rw [pqueue.key_setPriority_self c.items _ hitem]
    split
    · next hge => rw [min_eq_right (by omega)]
    · next hlt => rw [min_eq_left (by omega)]

/-- Witness for C2 at a concrete input: message id 5joined in flight by
consumer 7 with delivery time 1000 and `MaxMsgTimeout` 100; touching at time
1020 with a 50ns extension gives deadline `min(1070, 1100) = 1070`. -/
theorem c2_TouchMessage_deadline_witness :
    (({ NewChannel 10 100 false with
        msgs := [⟨5, 0, 7, 1000⟩], items := [⟨0, 1030, 0⟩],
        inFlightMessages := [(5, 0)], inFlightPQ := [0] } : Chan).TouchMessage 7 5 50 1020).2
      = none ∧
    pqueue.key (({ NewChannel 10 100 false with
        msgs := [⟨5, 0, 7, 1000⟩], items := [⟨0, 1030, 0⟩],
        inFlightMessages := [(5, 0)], inFlightPQ := [0] } : Chan).TouchMessage
          7 5 50 1020).1.items 0
      = min (1020 + 50) (1000 + 100) := by
  exact c2_TouchMessage_deadline
    { NewChannel 10 100 false with
      msgs := [⟨5, 0, 7, 1000⟩], items := [⟨0, 1030, 0⟩],
      inFlightMessages := [(5, 0)], inFlightPQ := [0] } 7 5 50 1020 0 0
    (by decide) (by decide) (by decide) (by decide)

/-- Claim C3 is false of the code: `clientID` is never cleared.  Concretely,
message id 1 is delivered to consumer 7 (`StartInFlightTimeout` stamps
`clientID = 7`); after `FinishMessage` the message object still carries
`clientID = 7`, and after an immediate `RequeueMessage` the message sits in
the backlog still carrying `clientID = 7` — nothing in `FinishMessage` or
`RequeueMessage` writes the field. -/
theorem c3_clientID_not_cleared_counterexample :
    (let c0 : Chan := { NewChannel 10 100 false with msgs := [⟨1, 0, 0, 0⟩] }
    let c1 : Chan := (c0.StartInFlightTimeout 0 7 30 100).1
    (getMsg (c1.FinishMessage 7 1).1 0).clientID = 7 ∧
    (c1.RequeueMessage 7 1 0 100).1.memoryMsgChan = [0] ∧
    (getMsg (c1.RequeueMessage 7 1 0 100).1 0).clientID = 7) := by
  simp [Chan.StartInFlightTimeout, Chan.pushInFlightMessage, Chan.addToInFlightPQ,
    Chan.FinishMessage, Chan.popInFlightMessage, Chan.removeFromInFlightPQ,
    Chan.RequeueMessage, Chan.put, Chan.Exiting, Chan.StartDeferredTimeout,
    pqueue.Push, pqueue.up, pqueue.swap, pqueue.less, pqueue.key, pqueue.Min,
    pqueue.setIndex, pqueue.getItem, pqueue.Remove, pqueue.down, pqueue.pop,
    getMsg, NewChannel, List.lookup]

/-- Claim C3, amended: the message's `clientID` field is set to the
delivering consumer by `StartInFlightTimeout` and retains that value
thereafter — neither `FinishMessage` nor `RequeueMessage` clears it (both
leave the message store untouched). -/
theorem c3_clientID_set_not_cleared (c : Chan) (a : Nat) (cid : Int) (tmo now : Int)
    (ha : a < c.msgs.length) :
    (getMsg (c.StartInFlightTimeout a cid tmo now).1 a).clientID = cid ∧
    (∀ (d : Chan) (cid2 : Int) (id2 : Nat), (d.FinishMessage cid2 id2).1.msgs = d.msgs) ∧
    (∀ (d : Chan) (cid2 : Int) (id2 : Nat) (tmo2 now2 : Int),
      (d.RequeueMessage cid2 id2 tmo2 now2).1.msgs = d.msgs) := by
  refine ⟨?_, FinishMessage_msgs, RequeueMessage_msgs⟩
  unfold getMsg
  rw [StartInFlightTimeout_msgs, pqueue.getD_set_self _ _ _ ha]

/-- Witness for the amended C3 at a concrete input: after delivery to
consumer 7 the stored message carries `clientID = 7`. -/
theorem c3_clientID_set_not_cleared_witness :
    (let c0 : Chan := { NewChannel 10 100 false with msgs := [⟨1, 0, 0, 0⟩] }
    (getMsg (c0.StartInFlightTimeout 0 7 30 100).1 0).clientID = 7) :=
  (c3_clientID_set_not_cleared
    { NewChannel 10 100 false with msgs := [⟨1, 0, 0, 0⟩] } 0 7 30 100 (by decide)).1

/-- Claim C4's heap-removal conjunct is false of the code, through the same
`swap` slip as C1.  Two messages go in flight for consumer 7: id 1 with a
10ns timeout (item address 0) and then id 2 with a 5ns timeout (item
address 1); the sift-up swap puts item 1 at heap position 0 but leaves both
`Index` fields stale.  `FinishMessage(7, 1)` then removes id 1 from the map
but `removeFromInFlightPQ` removes position `Index = 0`, which now holds
item 1: the finished message's item (address 0, whose message id is 1) stays
in the in-flight heap, while the still-in-flight message id 2 has its item
evicted (`index = -1`) although it remains in the map. -/
theorem c4_finish_removes_wrong_heap_item :
    (let c0 : Chan := { NewChannel 10 100 false with msgs := [⟨1, 0, 0, 0⟩, ⟨2, 0, 0, 0⟩] }
    let c1 : Chan := (c0.StartInFlightTimeout 0 7 10 100).1
    let c2 : Chan := (c1.StartInFlightTimeout 1 7 5 100).1
    let r := c2.FinishMessage 7 1
    r.2 = none ∧ r.1.inFlightMessages = [(2, 1)] ∧ r.1.inFlightPQ = [0] ∧
      (pqueue.getItem r.1.items 1).index = -1 ∧
      (pqueue.getItem r.1.items 0).val = 0 ∧ (getMsg r.1 0).ID = 1) := by
  simp [Chan.StartInFlightTimeout, Chan.pushInFlightMessage, Chan.addToInFlightPQ,
    Chan.FinishMessage, Chan.popInFlightMessage, Chan.removeFromInFlightPQ,
    pqueue.Push, pqueue.up, pqueue.swap, pqueue.less, pqueue.key, pqueue.Min,
    pqueue.setIndex, pqueue.getItem, pqueue.Remove, pqueue.down, pqueue.pop,
    getMsg, NewChannel, List.lookup]

theorem lookup_append_of_none {l : List (Nat × Nat)} {k v : Nat}
    (hl : l.lookup k = none) : (l ++ [(k, v)]).lookup k = some v := by
  induction l with
  | nil => simp [List.lookup]
  | cons p t ih =>
    rw [List.cons_append, List.lookup]
    rw [List.lookup] at hl
    split at hl
    · exact absurd hl (by simp)
    · exact ih hl

theorem removeFromInFlightPQ_frame (c : Chan) (itemA : Nat) :
    (c.removeFromInFlightPQ itemA).msgs = c.msgs ∧
    (c.removeFromInFlightPQ itemA).deferredMessages = c.deferredMessages ∧
    (c.removeFromInFlightPQ itemA).deferredPQ = c.deferredPQ ∧
    (c.removeFromInFlightPQ itemA).memoryMsgChan = c.memoryMsgChan ∧
    (c.removeFromInFlightPQ itemA).backend = c.backend ∧
    (c.removeFromInFlightPQ itemA).backendFail = c.backendFail ∧
    (c.removeFromInFlightPQ itemA).memQueueSize = c.memQueueSize ∧
    (c.removeFromInFlightPQ itemA).messageCount = c.messageCount ∧
    (c.removeFromInFlightPQ itemA).requeueCount = c.requeueCount ∧
    (c.removeFromInFlightPQ itemA).exitFlag = c.exitFlag ∧
    (c.removeFromInFlightPQ itemA).maxMsgTimeout = c.maxMsgTimeout ∧
    (c.removeFromInFlightPQ itemA).inFlightMessages = c.inFlightMessages ∧
    pqueue.key (c.removeFromInFlightPQ itemA).items = pqueue.key c.items ∧
    (∀ x, (pqueue.getItem (c.removeFromInFlightPQ itemA).items x).val
      = (pqueue.getItem c.items x).val) ∧
    (c.removeFromInFlightPQ itemA).items.length = c.items.length := by
  simp only [Chan.removeFromInFlightPQ]
  split
  · exact ⟨rfl, rfl, rfl, rfl, rfl, rfl, rfl, rfl, rfl, rfl, rfl, rfl,
      pqueue.Remove_store_key .., fun x => pqueue.Remove_store_val ..,
      pqueue.Remove_store_length ..⟩
  · exact ⟨rfl, rfl, rfl, rfl, rfl, rfl, rfl, rfl, rfl, rfl, rfl, rfl, rfl,
      fun x => rfl, rfl⟩

theorem StartDeferredTimeout_ok (c : Chan) (a : Nat) (tmo now : Int)
    (hnd : c.deferredMessages.lookup (getMsg c a).ID = none) :
    (c.StartDeferredTimeout a tmo now).2 = none ∧
    (c.StartDeferredTimeout a tmo now).1.deferredMessages =
      c.deferredMessages ++ [((getMsg c a).ID, c.items.length)] ∧
    pqueue.key (c.StartDeferredTimeout a tmo now).1.items c.items.length = now + tmo ∧
    c.items.length ∈ (c.StartDeferredTimeout a tmo now).1.deferredPQ ∧
    (c.StartDeferredTimeout a tmo now).1.requeueCount = c.requeueCount ∧
    (c.StartDeferredTimeout a tmo now).1.messageCount = c.messageCount ∧
    (c.StartDeferredTimeout a tmo now).1.memoryMsgChan = c.memoryMsgChan ∧
    (c.StartDeferredTimeout a tmo now).1.backend = c.backend := by
  simp only [Chan.StartDeferredTimeout, Chan.pushDeferredMessage]
  have hitem : pqueue.getItem
      ({ c with items := c.items ++ [(⟨a, now + tmo, 0⟩ : pqueue.Item)] } : Chan).items
      c.items.length = (⟨a, now + tmo, 0⟩ : pqueue.Item) := by
    show pqueue.getItem (c.items ++ [(⟨a, now + tmo, 0⟩ : pqueue.Item)]) c.items.length = _
    exact pqueue.getItem_append_self ..
  rw [hitem]
  rw [show ((⟨a, now + tmo, 0⟩ : pqueue.Item)).val = a from rfl]
  rw [show getMsg { c with items := c.items ++ [(⟨a, now + tmo, 0⟩ : pqueue.Item)] } a
    = getMsg c a from rfl]
  rw [show ({ c with items := c.items ++ [(⟨a, now + tmo, 0⟩ : pqueue.Item)] }
    : Chan).deferredMessages = c.deferredMessages from rfl]
  rw [hnd]
  refine ⟨rfl, rfl, ?_, ?_, rfl, rfl, rfl, rfl⟩
  · show pqueue.key
      (pqueue.Push (c.items ++ [(⟨a, now + tmo, 0⟩ : pqueue.Item)]) c.deferredPQ
        c.items.length).1 c.items.length = now + tmo
    rw [pqueue.Push_key]
    unfold pqueue.key
    rw [pqueue.getItem_append_self]
  · show c.items.length ∈
      (pqueue.Push (c.items ++ [(⟨a, now + tmo, 0⟩ : pqueue.Item)]) c.deferredPQ
        c.items.length).2
    refine (pqueue.Push_perm _ _ _).mem_iff.mpr ?_
    simp

/-- Claim C9: a requeue by the owning consumer, under the conditions that
make it succeed (not exiting; for the deferred case the id not already
deferred; healthy backend), succeeds, increments `requeueCount` by exactly
one and leaves `messageCount` unchanged; with `timeout = 0` the message is
re-`put` through the normal path (backlog-plus-backend depth grows by one
and one of them now holds the message), and with `timeout ≠ 0` it lands in
the deferred tracker with deadline `now + timeout`. -/
theorem c9_RequeueMessage_spec (c : Chan) (cid : Int) (id : Nat) (tmo now : Int)
    (itemA msgA : Nat)
    (hlook : c.inFlightMessages.lookup id = some itemA)
    (hval : (pqueue.getItem c.items itemA).val = msgA)
    (hown : (getMsg c msgA).clientID = cid)
    (hexit : c.exitFlag = false)
    (hnd : c.deferredMessages.lookup (getMsg c msgA).ID = none)
    (hbf : c.backendFail = false) :
    (c.RequeueMessage cid id tmo now).2 = none ∧
    (c.RequeueMessage cid id tmo now).1.requeueCount = c.requeueCount + 1 ∧
    (c.RequeueMessage cid id tmo now).1.messageCount = c.messageCount ∧
    (tmo = 0 →
      (c.RequeueMessage cid id tmo now).1.memoryMsgChan.length +
          (c.RequeueMessage cid id tmo now).1.backend.length =
        c.memoryMsgChan.length + c.backend.length + 1 ∧
      (msgA ∈ (c.RequeueMessage cid id tmo now).1.memoryMsgChan ∨
        msgA ∈ (c.RequeueMessage cid id tmo now).1.backend)) ∧
    (tmo ≠ 0 →
      (c.RequeueMessage cid id tmo now).1.deferredMessages.lookup (getMsg c msgA).ID =
        some c.items.length ∧
      pqueue.key (c.RequeueMessage cid id tmo now).1.items c.items.length = now + tmo ∧
      c.items.length ∈ (c.RequeueMessage cid id tmo now).1.deferredPQ) := by
  have hpop := popInFlightMessage_ok c cid id false itemA hlook (by rw [hval]; exact hown)
  rw [if_neg (by simp)] at hpop
  obtain ⟨f1, f2, f3, f4, f5, f6, f7, f8, f9, f10, f11, f12, f13, f14, f15⟩ :=
    removeFromInFlightPQ_frame
      { c with inFlightMessages := c.inFlightMessages.filter (fun p => !(p.1 == id)) } itemA
  simp only [Chan.RequeueMessage, hpop]
  set c2 : Chan := Chan.removeFromInFlightPQ
    { c with inFlightMessages := c.inFlightMessages.filter (fun p => !(p.1 == id)) } itemA
    with hc2def
  have e1 : c2.msgs = c.msgs := f1
  have e2 : c2.deferredMessages = c.deferredMessages := f2
  have e4 : c2.memoryMsgChan = c.memoryMsgChan := f4
  have e5 : c2.backend = c.backend := f5
  have e6 : c2.backendFail = c.backendFail := f6
  have e8 : c2.messageCount = c.messageCount := f8
  have e9 : c2.requeueCount = c.requeueCount := f9
  have e10 : c2.exitFlag = c.exitFlag := f10
  have e14 : ∀ x, (pqueue.getItem c2.items x).val = (pqueue.getItem c.items x).val := f14
  have e15 : c2.items.length = c.items.length := f15
  rw [show ({ c2 with requeueCount := c2.requeueCount + 1 } : Chan).items = c2.items from rfl]
  have hv : (pqueue.getItem c2.items itemA).val = msgA := by
    rw [e14 itemA]
    exact hval
  by_cases htmo : tmo = 0
  · rw [if_pos (by simp [htmo])]
    rw [if_neg (by
      rw [show ({ c2 with requeueCount := c2.requeueCount + 1 } : Chan).Exiting
        = c2.exitFlag from rfl, e10, hexit]
      simp)]
    rcases put_cases { c2 with requeueCount := c2.requeueCount + 1 }
        ((pqueue.getItem c2.items itemA).val) with ⟨h1, hp⟩ | ⟨h1, h2, hp⟩ | ⟨h1, h2, hp⟩
    · rw [hp]
      refine ⟨rfl, ?_, ?_, ?_, fun h => absurd htmo h⟩
      · show c2.requeueCount + 1 = c.requeueCount + 1
        rw [e9]
      · show c2.messageCount = c.messageCount
        exact e8
      · intro _
        constructor
        · show (c2.memoryMsgChan ++ [(pqueue.getItem c2.items itemA).val]).length +
            c2.backend.length = c.memoryMsgChan.length + c.backend.length + 1
          rw [e4, e5]
          simp only [List.length_append, List.length_singleton]
          omega
        · left
          show msgA ∈ c2.memoryMsgChan ++ [(pqueue.getItem c2.items itemA).val]
          rw [hv]
          simp
    · rw [show ({ c2 with requeueCount := c2.requeueCount + 1 } : Chan).backendFail
        = c2.backendFail from rfl, e6, hbf] at h2
      exact absurd h2 (by simp)
    · rw [hp]
      refine ⟨rfl, ?_, ?_, ?_, fun h => absurd htmo h⟩
      · show c2.requeueCount + 1 = c.requeueCount + 1
        rw [e9]
      · show c2.messageCount = c.messageCount
        exact e8
      · intro _
        constructor
        · show c2.memoryMsgChan.length +
            (c2.backend ++ [(pqueue.getItem c2.items itemA).val]).length =
            c.memoryMsgChan.length + c.backend.length + 1
          rw [e4, e5]
          simp only [List.length_append, List.length_singleton]
          omega
        · right
          show msgA ∈ c2.backend ++ [(pqueue.getItem c2.items itemA).val]
          rw [hv]
          simp
  · rw [if_neg (by simp [htmo])]
    have hg : getMsg { c2 with requeueCount := c2.requeueCount + 1 }
        ((pqueue.getItem c2.items itemA).val) = getMsg c msgA := by
      show c2.msgs.getD ((pqueue.getItem c2.items itemA).val) ⟨0, 0, 0, 0⟩ = _
      rw [e1, hv]
      rfl
    have hnd2 : ({ c2 with requeueCount := c2.requeueCount + 1 }
        : Chan).deferredMessages.lookup
        (getMsg { c2 with requeueCount := c2.requeueCount + 1 }
          ((pqueue.getItem c2.items itemA).val)).ID = none := by
      rw [hg]
      show c2.deferredMessages.lookup (getMsg c msgA).ID = none
      rw [e2]
      exact hnd
    obtain ⟨s1, s2, s3, s4, s5, s6, s7, s8⟩ := StartDeferredTimeout_ok
      { c2 with requeueCount := c2.requeueCount + 1 }
      ((pqueue.getItem c2.items itemA).val) tmo now hnd2
    have hlen3 : ({ c2 with requeueCount := c2.requeueCount + 1 } : Chan).items.length
        = c.items.length := by
      show c2.items.length = c.items.length
      exact e15
    refine ⟨s1, ?_, ?_, fun h => absurd h htmo, ?_⟩
    · rw [s5]
      show c2.requeueCount + 1 = c.requeueCount + 1
      rw [e9]
    · rw [s6]
      show c2.messageCount = c.messageCount
      exact e8
    · intro _
      refine ⟨?_, ?_, ?_⟩
      · rw [s2, hg, hlen3]
        rw [show ({ c2 with requeueCount := c2.requeueCount + 1 } : Chan).deferredMessages
          = c2.deferredMessages from rfl, e2]
        exact lookup_append_of_none hnd
      · rw [hlen3] at s3
        exact s3
      · rw [hlen3] at s4
        exact s4

/-- Witness for C9 at a concrete input: message id 5, in flight for
consumer 7, requeued immediately; the requeue succeeds, `requeueCount` goes
from 0 to 1 and `messageCount` stays 0. -/
theorem c9_RequeueMessage_spec_witness :
    (let cW : Chan := { NewChannel 1 100 false with
      msgs := [⟨5, 0, 7, 1000⟩], items := [⟨0, 1030, 0⟩],
      inFlightMessages := [(5, 0)], inFlightPQ := [0] }
    (cW.RequeueMessage 7 5 0 1100).2 = none ∧
    (cW.RequeueMessage 7 5 0 1100).1.requeueCount = cW.requeueCount + 1 ∧
    (cW.RequeueMessage 7 5 0 1100).1.messageCount = cW.messageCount) := by
  obtain ⟨h1, h2, h3, -, -⟩ := c9_RequeueMessage_spec
    { NewChannel 1 100 false with
      msgs := [⟨5, 0, 7, 1000⟩], items := [⟨0, 1030, 0⟩],
      inFlightMessages := [(5, 0)], inFlightPQ := [0] } 7 5 0 1100 0 0
    (by decide) (by decide) (by decide) (by decide) (by decide) (by decide)
  exact ⟨h1, h2, h3⟩

theorem PeekAndShift_due (s : pqueue.Store) (h : List Nat) (comp : Int → Bool)
    (hne : h ≠ []) (hcomp : comp (pqueue.key s (h.getD 0 0)) = false) :
    pqueue.PeekAndShift s h comp =
      ((pqueue.Remove s h 0).1, (pqueue.Remove s h 0).2.1, some (h.getD 0 0)) := by
  have hshow : pqueue.PeekAndShift s h comp =
      if h.length = 0 then (s, h, none)
      else if comp (pqueue.key s (h.getD 0 0)) = true then (s, h, none)
      else ((pqueue.Remove s h 0).1, (pqueue.Remove s h 0).2.1, some (h.getD 0 0)) := rfl
  rw [hshow, if_neg (by simpa using hne), if_neg (by rw [hcomp]; simp)]

theorem PeekAndShift_stay (s : pqueue.Store) (h : List Nat) (comp : Int → Bool)
    (hc : h = [] ∨ comp (pqueue.key s (h.getD 0 0)) = true) :
    pqueue.PeekAndShift s h comp = (s, h, none) := by
  have hshow : pqueue.PeekAndShift s h comp =
      if h.length = 0 then (s, h, none)
      else if comp (pqueue.key s (h.getD 0 0)) = true then (s, h, none)
      else ((pqueue.Remove s h 0).1, (pqueue.Remove s h 0).2.1, some (h.getD 0 0)) := rfl
  rcases hc with rfl | hc
  · rfl
  · rw [hshow]
    by_cases hlen : h.length = 0
    · rw [if_pos hlen]
    · rw [if_neg hlen, if_pos hc]

theorem pdqLoop_zero (c : Chan) (t : Int) (d : Bool) :
    Chan.pdqLoop c t d 0 = (c, d) := rfl

theorem pdqLoop_succ_stop (c : Chan) (t : Int) (d : Bool) (fuel : Nat)
    (hstop : (pqueue.PeekAndShift c.items c.deferredPQ
      (fun p => decide (t < p))).2.2 = none) :
    Chan.pdqLoop c t d (fuel + 1) = (c, d) := by
  simp only [Chan.pdqLoop, hstop]

theorem pdqLoop_succ_some (c : Chan) (t : Int) (d : Bool) (fuel : Nat)
    (hne : c.deferredPQ ≠ [])
    (hdue : decide (t < pqueue.key c.items (c.deferredPQ.getD 0 0)) = false) :
    Chan.pdqLoop c t d (fuel + 1) =
      (let r1 := pqueue.Remove c.items c.deferredPQ 0
       let a := c.deferredPQ.getD 0 0
       let mid := (getMsg c (pqueue.getItem r1.1 a).val).ID
       let c2 : Chan := { c with
         items := r1.1, deferredPQ := r1.2.1,
         deferredMessages := c.deferredMessages.filter (fun p => !(p.1 == mid)) }
       Chan.pdqLoop (c2.put (pqueue.getItem c2.items a).val).1 t true fuel) := by
  have hr := PeekAndShift_due c.items c.deferredPQ (fun p => decide (t < p)) hne hdue
  simp only [Chan.pdqLoop, hr]
  rfl

theorem lookup_filter_none {l : List (Nat × Nat)} {k : Nat} (p : Nat × Nat → Bool)
    (hl : l.lookup k = none) : (l.filter p).lookup k = none := by
  induction l with
  | nil => simp
  | cons x t ih =>
    rw [List.lookup] at hl
    split at hl
    · exact absurd hl (by simp)
    · next hb =>
      by_cases hp : p x
      · rw [List.filter_cons_of_pos hp, List.lookup]
        split
        · next hbb =>
          rw [hbb] at hb
          simp at hb
        · exact ih hl
      · rw [List.filter_cons_of_neg hp]
        exact ih hl

theorem lookup_filter_self (l : List (Nat × Nat)) (k : Nat) :
    (l.filter (fun p => !(p.1 == k))).lookup k = none := by
  induction l with
  | nil => simp
  | cons x t ih =>
    by_cases hp : x.1 = k
    · rw [List.filter_cons_of_neg (by simp [hp])]
      exact ih
    · rw [List.filter_cons_of_pos (by simpa using hp), List.lookup]
      split
      · next hbb =>
        simp at hbb
        exact absurd hbb.symm hp
      · exact ih

theorem lookup_filter_ne {l : List (Nat × Nat)} {k k2 : Nat} (hkk : k ≠ k2) :
    (l.filter (fun p => !(p.1 == k2))).lookup k = l.lookup k := by
  induction l with
  | nil => simp
  | cons x t ih =>
    by_cases hp : x.1 = k2
    · rw [List.filter_cons_of_neg (by simp [hp]), List.lookup]
      rw [show (k == x.1) = false from by subst hp; simpa using hkk]
      exact ih
    · rw [List.filter_cons_of_pos (by simpa using hp), List.lookup, List.lookup]
      split
      · rfl
      · exact ih

theorem put_frame (c : Chan) (a : Nat) :
    (c.put a).1.msgs = c.msgs ∧
    (c.put a).1.items = c.items ∧
    (c.put a).1.deferredMessages = c.deferredMessages ∧
    (c.put a).1.deferredPQ = c.deferredPQ ∧
    (c.put a).1.backendFail = c.backendFail ∧
    (c.put a).1.memQueueSize = c.memQueueSize ∧
    (∀ x, x ∈ c.memoryMsgChan → x ∈ (c.put a).1.memoryMsgChan) ∧
    (∀ x, x ∈ c.backend → x ∈ (c.put a).1.backend) := by
  rcases put_cases c a with ⟨_, hp⟩ | ⟨_, _, hp⟩ | ⟨_, _, hp⟩ <;> rw [hp]
  · exact ⟨rfl, rfl, rfl, rfl, rfl, rfl,
      fun x hx => by show x ∈ c.memoryMsgChan ++ [a]; simp [hx], fun x hx => hx⟩
  · exact ⟨rfl, rfl, rfl, rfl, rfl, rfl, fun x hx => hx, fun x hx => hx⟩
  · exact ⟨rfl, rfl, rfl, rfl, rfl, rfl, fun x hx => hx,
      fun x hx => by show x ∈ c.backend ++ [a]; simp [hx]⟩

theorem put_mem_self (c : Chan) (a : Nat) (hbf : c.backendFail = false) :
    a ∈ (c.put a).1.memoryMsgChan ∨ a ∈ (c.put a).1.backend := by
  rcases put_cases c a with ⟨_, hp⟩ | ⟨_, h2, hp⟩ | ⟨_, _, hp⟩ <;> rw [hp]
  · left
    show a ∈ c.memoryMsgChan ++ [a]
    simp
  · rw [hbf] at h2
    exact absurd h2 (by simp)
  · right
    show a ∈ c.backend ++ [a]
    simp

theorem PeekAndShift_some_inv {s : pqueue.Store} {h : List Nat} {t : Int} {a : Nat}
    (hopt : (pqueue.PeekAndShift s h (fun p => decide (t < p))).2.2 = some a) :
    h ≠ [] ∧ decide (t < pqueue.key s (h.getD 0 0)) = false ∧ a = h.getD 0 0 := by
  have hne : h ≠ [] := by
    intro he
    rw [PeekAndShift_stay s h _ (Or.inl he)] at hopt
    simp at hopt
  have hdue : decide (t < pqueue.key s (h.getD 0 0)) = false := by
    cases hd : decide (t < pqueue.key s (h.getD 0 0))
    · rfl
    · rw [PeekAndShift_stay s h _ (Or.inr hd)] at hopt
      simp at hopt
  refine ⟨hne, hdue, ?_⟩
  rw [PeekAndShift_due s h _ hne hdue] at hopt
  simpa using hopt.symm

theorem pdqLoop_dirty : ∀ (fuel : Nat) (c : Chan) (t : Int),
    (Chan.pdqLoop c t true fuel).2 = true := by
  intro fuel
  induction fuel with
  | zero => intro c t; rfl
  | succ fuel ih =>
    intro c t
    rcases hopt : (pqueue.PeekAndShift c.items c.deferredPQ
        (fun p => decide (t < p))).2.2 with _ | a
    · rw [pdqLoop_succ_stop c t true fuel hopt]
    · obtain ⟨hne, hdue, -⟩ := PeekAndShift_some_inv hopt
      rw [pdqLoop_succ_some c t true fuel hne hdue]
      exact ih _ _

theorem tail_subset_mem {l : List Nat} {x : Nat} (hx : x ∈ l.tail) : x ∈ l := by
  rcases l with _ | ⟨y, t⟩
  · simp at hx
  · exact List.mem_cons_of_mem y hx

theorem pdqLoop_frame : ∀ (fuel : Nat) (c : Chan) (t : Int) (d : Bool),
    (Chan.pdqLoop c t d fuel).1.msgs = c.msgs ∧
    (Chan.pdqLoop c t d fuel).1.backendFail = c.backendFail ∧
    (∀ x, x ∈ c.memoryMsgChan → x ∈ (Chan.pdqLoop c t d fuel).1.memoryMsgChan) ∧
    (∀ x, x ∈ c.backend → x ∈ (Chan.pdqLoop c t d fuel).1.backend) ∧
    (∀ x, x ∈ (Chan.pdqLoop c t d fuel).1.deferredPQ → x ∈ c.deferredPQ) ∧
    (∀ k, c.deferredMessages.lookup k = none →
      (Chan.pdqLoop c t d fuel).1.deferredMessages.lookup k = none) := by
  intro fuel
  induction fuel with
  | zero =>
    intro c t d
    exact ⟨rfl, rfl, fun x hx => hx, fun x hx => hx, fun x hx => hx, fun k hk => hk⟩
  | succ fuel ih =>
    intro c t d
    rcases hopt : (pqueue.PeekAndShift c.items c.deferredPQ
        (fun p => decide (t < p))).2.2 with _ | a
    · rw [pdqLoop_succ_stop c t d fuel hopt]
      exact ⟨rfl, rfl, fun x hx => hx, fun x hx => hx, fun x hx => hx, fun k hk => hk⟩
    · obtain ⟨hne, hdue, -⟩ := PeekAndShift_some_inv hopt
      rw [pdqLoop_succ_some c t d fuel hne hdue]
      set c2 : Chan := { c with
        items := (pqueue.Remove c.items c.deferredPQ 0).1,
        deferredPQ := (pqueue.Remove c.items c.deferredPQ 0).2.1,
        deferredMessages := c.deferredMessages.filter (fun p =>
          !(p.1 == (getMsg c (pqueue.getItem (pqueue.Remove c.items c.deferredPQ 0).1
            (c.deferredPQ.getD 0 0)).val).ID)) } with hc2
      set v : Nat := (pqueue.getItem c2.items (c.deferredPQ.getD 0 0)).val with hv
      obtain ⟨p1, p2, p3, p4, p5, p6, p7, p8⟩ := put_frame c2 v
      obtain ⟨i1, i2, i3, i4, i5, i6⟩ := ih (c2.put v).1 t true
      refine ⟨?_, ?_, ?_, ?_, ?_, ?_⟩
      · rw [i1, p1]
      · rw [i2, p5]
      · intro x hx
        exact i3 x (p7 x hx)
      · intro x hx
        exact i4 x (p8 x hx)
      · intro x hx
        have hx2 : x ∈ c2.deferredPQ := p4 ▸ i5 x hx
        have hx3 : x ∈ (pqueue.Remove c.items c.deferredPQ 0).2.1 := hx2
        rw [pqueue.Remove_zero_eq_Pop] at hx3
        exact tail_subset_mem ((pqueue.Pop_perm_tail c.items c.deferredPQ hne).mem_iff.mp hx3)
      · intro k hk
        refine i6 k ?_
        rw [p3]
        show (c.deferredMessages.filter _).lookup k = none
        exact lookup_filter_none _ hk

theorem getD_zero_mem {l : List Nat} (hne : l ≠ []) : l.getD 0 0 ∈ l := by
  obtain ⟨x, t, rfl⟩ := List.exists_cons_of_ne_nil hne
  exact List.mem_cons_self x t

theorem mem_tail_of_ne_head {l : List Nat} {x : Nat} (hx : x ∈ l) (hne : l ≠ [])
    (hxh : x ≠ l.getD 0 0) : x ∈ l.tail := by
  obtain ⟨y, t, rfl⟩ := List.exists_cons_of_ne_nil hne
  rcases List.mem_cons.mp hx with rfl | h
  · exact absurd rfl hxh
  · exact h

theorem pdqLoop_keeps : ∀ (fuel : Nat) (c : Chan) (t : Int) (d : Bool) (itemA : Nat),
    itemA ∈ c.deferredPQ →
    t < pqueue.key c.items itemA →
    c.deferredMessages.lookup (getMsg c (pqueue.getItem c.items itemA).val).ID =
      some itemA →
    (∀ b, b ∈ c.deferredPQ → b ≠ itemA →
      (getMsg c (pqueue.getItem c.items b).val).ID ≠
        (getMsg c (pqueue.getItem c.items itemA).val).ID) →
    itemA ∈ (Chan.pdqLoop c t d fuel).1.deferredPQ ∧
    (Chan.pdqLoop c t d fuel).1.deferredMessages.lookup
      (getMsg c (pqueue.getItem c.items itemA).val).ID = some itemA := by
  intro fuel
  induction fuel with
  | zero =>
    intro c t d itemA hmem hkey hlook hids
    exact ⟨hmem, hlook⟩
  | succ fuel ih =>
    intro c t d itemA hmem hkey hlook hids
    rcases hopt : (pqueue.PeekAndShift c.items c.deferredPQ
        (fun p => decide (t < p))).2.2 with _ | a
    · rw [pdqLoop_succ_stop c t d fuel hopt]
      exact ⟨hmem, hlook⟩
    · obtain ⟨hne, hdue, -⟩ := PeekAndShift_some_inv hopt
      rw [pdqLoop_succ_some c t d fuel hne hdue]
      set c2 : Chan := { c with
        items := (pqueue.Remove c.items c.deferredPQ 0).1,
        deferredPQ := (pqueue.Remove c.items c.deferredPQ 0).2.1,
        deferredMessages := c.deferredMessages.filter (fun p =>
          !(p.1 == (getMsg c (pqueue.getItem (pqueue.Remove c.items c.deferredPQ 0).1
            (c.deferredPQ.getD 0 0)).val).ID)) } with hc2
      set v : Nat := (pqueue.getItem c2.items (c.deferredPQ.getD 0 0)).val with hv
      obtain ⟨p1, p2, p3, p4, p5, p6, p7, p8⟩ := put_frame c2 v
      have hc2items : c2.items = (pqueue.Remove c.items c.deferredPQ 0).1 := by rw [hc2]
      have hc2pq : c2.deferredPQ = (pqueue.Remove c.items c.deferredPQ 0).2.1 := by
        rw [hc2]
      have hc2msgs : c2.msgs = c.msgs := by rw [hc2]
      have hc2dm : c2.deferredMessages = c.deferredMessages.filter (fun p =>
          !(p.1 == (getMsg c (pqueue.getItem (pqueue.Remove c.items c.deferredPQ 0).1
            (c.deferredPQ.getD 0 0)).val).ID)) := by rw [hc2]
      have hheadne : itemA ≠ c.deferredPQ.getD 0 0 := by
        intro he
        rw [← he] at hdue
        simp only [decide_eq_false_iff_not, not_lt] at hdue
        exact absurd hkey (not_lt.mpr hdue)
      have hmemS : itemA ∈ (c2.put v).1.deferredPQ := by
        rw [p4, hc2pq, pqueue.Remove_zero_eq_Pop]
        exact (pqueue.Pop_perm_tail c.items c.deferredPQ hne).mem_iff.mpr
          (mem_tail_of_ne_head hmem hne hheadne)
      have hkeyS : t < pqueue.key (c2.put v).1.items itemA := by
        rw [p2, hc2items, pqueue.Remove_store_key]
        exact hkey
      have hgm : ∀ x, getMsg (c2.put v).1 x = getMsg c x := by
        intro x
        simp only [getMsg]
        rw [p1, hc2msgs]
      have hvalS : ∀ x, (pqueue.getItem (c2.put v).1.items x).val =
          (pqueue.getItem c.items x).val := by
        intro x
        rw [p2, hc2items]
        exact pqueue.Remove_store_val c.items c.deferredPQ 0 x
      have hmidS : ∀ x,
          (getMsg (c2.put v).1 (pqueue.getItem (c2.put v).1.items x).val).ID =
            (getMsg c (pqueue.getItem c.items x).val).ID := by
        intro x
        rw [hgm, hvalS]
      have hmidhead : (getMsg c (pqueue.getItem (pqueue.Remove c.items c.deferredPQ 0).1
          (c.deferredPQ.getD 0 0)).val).ID ≠
            (getMsg c (pqueue.getItem c.items itemA).val).ID := by
        rw [pqueue.Remove_store_val]
        exact hids _ (getD_zero_mem hne) (Ne.symm hheadne)
      have hlookS : (c2.put v).1.deferredMessages.lookup
          (getMsg c (pqueue.getItem c.items itemA).val).ID = some itemA := by
        rw [p3, hc2dm, lookup_filter_ne (Ne.symm hmidhead)]
        exact hlook
      have hidsS : ∀ b, b ∈ (c2.put v).1.deferredPQ → b ≠ itemA →
          (getMsg (c2.put v).1 (pqueue.getItem (c2.put v).1.items b).val).ID ≠
            (getMsg (c2.put v).1 (pqueue.getItem (c2.put v).1.items itemA).val).ID := by
        intro b hb hbne
        rw [hmidS, hmidS]
        refine hids b ?_ hbne
        rw [p4, hc2pq, pqueue.Remove_zero_eq_Pop] at hb
        exact tail_subset_mem ((pqueue.Pop_perm_tail c.items c.deferredPQ hne).mem_iff.mp hb)
      obtain ⟨r1, r2⟩ := ih (c2.put v).1 t true itemA hmemS hkeyS
        (by rw [hmidS]; exact hlookS) hidsS
      rw [hmidS] at r2
      exact ⟨r1, r2⟩

theorem pdqLoop_removes : ∀ (fuel : Nat) (c : Chan) (t : Int) (d : Bool) (itemA : Nat),
    itemA ∈ c.deferredPQ →
    c.deferredPQ.count itemA = 1 →
    pqueue.key c.items itemA ≤ t →
    pqueue.HeapD (pqueue.key c.items) c.deferredPQ c.deferredPQ.length →
    c.deferredPQ.length ≤ fuel →
    c.backendFail = false →
    itemA ∉ (Chan.pdqLoop c t d fuel).1.deferredPQ ∧
    (Chan.pdqLoop c t d fuel).1.deferredMessages.lookup
      (getMsg c (pqueue.getItem c.items itemA).val).ID = none ∧
    ((pqueue.getItem c.items itemA).val ∈ (Chan.pdqLoop c t d fuel).1.memoryMsgChan ∨
      (pqueue.getItem c.items itemA).val ∈ (Chan.pdqLoop c t d fuel).1.backend) ∧
    (Chan.pdqLoop c t d fuel).2 = true := by
  intro fuel
  induction fuel with
  | zero =>
    intro c t d itemA hmem hcount hkey hH hfuel hbf
    exfalso
    have h1 : 0 < c.deferredPQ.length := List.length_pos.mpr (by
      intro he
      rw [he] at hmem
      exact absurd hmem (by simp))
    omega
  | succ fuel ih =>
    intro c t d itemA hmem hcount hkey hH hfuel hbf
    have hne : c.deferredPQ ≠ [] := by
      intro he
      rw [he] at hmem
      exact absurd hmem (by simp)
    have hlen1 : 0 < c.deferredPQ.length := List.length_pos.mpr hne
    have hheadle : pqueue.key c.items (c.deferredPQ.getD 0 0) ≤
        pqueue.key c.items itemA := by
      obtain ⟨k, hk, hkel⟩ := List.mem_iff_getElem.mp hmem
      have h2 : c.deferredPQ.getD k 0 = itemA := by
        rw [List.getD_eq_getElem _ _ hk]
        exact hkel
      rw [← h2]
      exact pqueue.root_min hH k hk
    have hdue : decide (t < pqueue.key c.items (c.deferredPQ.getD 0 0)) = false := by
      simp only [decide_eq_false_iff_not, not_lt]
      exact le_trans hheadle hkey
    rw [pdqLoop_succ_some c t d fuel hne hdue]
    set c2 : Chan := { c with
      items := (pqueue.Remove c.items c.deferredPQ 0).1,
      deferredPQ := (pqueue.Remove c.items c.deferredPQ 0).2.1,
      deferredMessages := c.deferredMessages.filter (fun p =>
        !(p.1 == (getMsg c (pqueue.getItem (pqueue.Remove c.items c.deferredPQ 0).1
          (c.deferredPQ.getD 0 0)).val).ID)) } with hc2
    set v : Nat := (pqueue.getItem c2.items (c.deferredPQ.getD 0 0)).val with hv
    obtain ⟨p1, p2, p3, p4, p5, p6, p7, p8⟩ := put_frame c2 v
    have hc2items : c2.items = (pqueue.Remove c.items c.deferredPQ 0).1 := by rw [hc2]
    have hc2pq : c2.deferredPQ = (pqueue.Remove c.items c.deferredPQ 0).2.1 := by
      rw [hc2]
    have hc2msgs : c2.msgs = c.msgs := by rw [hc2]
    have hc2dm : c2.deferredMessages = c.deferredMessages.filter (fun p =>
        !(p.1 == (getMsg c (pqueue.getItem (pqueue.Remove c.items c.deferredPQ 0).1
          (c.deferredPQ.getD 0 0)).val).ID)) := by rw [hc2]
    have hc2bf : c2.backendFail = c.backendFail := by rw [hc2]
    have hbfS : (c2.put v).1.backendFail = false := by rw [p5, hc2bf, hbf]
    have hpqS : (c2.put v).1.deferredPQ = (pqueue.Pop c.items c.deferredPQ).2.1 := by
      rw [p4, hc2pq, pqueue.Remove_zero_eq_Pop]
    have hperm := pqueue.Pop_perm_tail c.items c.deferredPQ hne
    have hgm : ∀ x, getMsg (c2.put v).1 x = getMsg c x := by
      intro x
      simp only [getMsg]
      rw [p1, hc2msgs]
    have hvalS : ∀ x, (pqueue.getItem (c2.put v).1.items x).val =
        (pqueue.getItem c.items x).val := by
      intro x
      rw [p2, hc2items]
      exact pqueue.Remove_store_val c.items c.deferredPQ 0 x
    have hmidS : ∀ x,
        (getMsg (c2.put v).1 (pqueue.getItem (c2.put v).1.items x).val).ID =
          (getMsg c (pqueue.getItem c.items x).val).ID := by
      intro x
      rw [hgm, hvalS]
    by_cases hcase : c.deferredPQ.getD 0 0 = itemA
    · obtain ⟨i1, i2, i3, i4, i5, i6⟩ := pdqLoop_frame fuel (c2.put v).1 t true
      have hvA : v = (pqueue.getItem c.items itemA).val := by
        rw [hv, hc2items, hcase]
        exact pqueue.Remove_store_val c.items c.deferredPQ 0 itemA
      have hnotmem : itemA ∉ (c2.put v).1.deferredPQ := by
        rw [hpqS]
        intro hmem2
        have htl : itemA ∈ c.deferredPQ.tail := hperm.mem_iff.mp hmem2
        obtain ⟨x, tl, hxe⟩ := List.exists_cons_of_ne_nil hne
        rw [hxe] at hcase hcount htl
        have hx : x = itemA := hcase
        rw [hx, List.count_cons_self] at hcount
        have h0 : tl.count itemA = 0 := by omega
        exact absurd htl (List.count_eq_zero.mp h0)
      have hlookS : (c2.put v).1.deferredMessages.lookup
          (getMsg c (pqueue.getItem c.items itemA).val).ID = none := by
        rw [p3, hc2dm]
        rw [show (getMsg c (pqueue.getItem (pqueue.Remove c.items c.deferredPQ 0).1
            (c.deferredPQ.getD 0 0)).val).ID =
            (getMsg c (pqueue.getItem c.items itemA).val).ID from by
          rw [pqueue.Remove_store_val, hcase]]
        exact lookup_filter_self _ _
      have hput : (pqueue.getItem c.items itemA).val ∈ (c2.put v).1.memoryMsgChan ∨
          (pqueue.getItem c.items itemA).val ∈ (c2.put v).1.backend := by
        rw [← hvA]
        exact put_mem_self c2 v (by rw [hc2bf]; exact hbf)
      refine ⟨?_, ?_, ?_, ?_⟩
      · intro hmemF
        exact hnotmem (i5 _ hmemF)
      · exact i6 _ hlookS
      · rcases hput with h | h
        · exact Or.inl (i3 _ h)
        · exact Or.inr (i4 _ h)
      · exact pdqLoop_dirty fuel (c2.put v).1 t
    · have hmemS : itemA ∈ (c2.put v).1.deferredPQ := by
        rw [hpqS]
        exact hperm.mem_iff.mpr
          (mem_tail_of_ne_head hmem hne (fun he => hcase he.symm))
      have hcountS : (c2.put v).1.deferredPQ.count itemA = 1 := by
        rw [hpqS, hperm.count_eq]
        obtain ⟨x, tl, hxe⟩ := List.exists_cons_of_ne_nil hne
        rw [hxe] at hcase hcount ⊢
        have hxne : itemA ≠ x := fun he => hcase he.symm
        show tl.count itemA = 1
        rw [List.count_cons_of_ne hxne] at hcount
        exact hcount
      have hkeyS : pqueue.key (c2.put v).1.items itemA ≤ t := by
        rw [p2, hc2items, pqueue.Remove_store_key]
        exact hkey
      have hHS : pqueue.HeapD (pqueue.key (c2.put v).1.items) (c2.put v).1.deferredPQ
          (c2.put v).1.deferredPQ.length := by
        rw [p2, hc2items, hpqS, pqueue.Remove_zero_eq_Pop]
        exact pqueue.Pop_heapy c.items c.deferredPQ hH
      have hfuelS : (c2.put v).1.deferredPQ.length ≤ fuel := by
        rw [hpqS, pqueue.Pop_heap_length]
        omega
      obtain ⟨r1, r2, r3, r4⟩ := ih (c2.put v).1 t true itemA hmemS hcountS hkeyS hHS
        hfuelS hbfS
      rw [hmidS] at r2
      rw [hvalS] at r3
      exact ⟨r1, r2, r3, r4⟩

/-- C6: `processDeferredQueue(t)` on a deferred message tracked by heap item
`itemA` scheduled at `t0` (its priority): when the channel is exiting the
sweep releases nothing and returns `false`; when not exiting and `t0 ≤ t`
the item is removed from both the deferred heap and the deferred map and its
message is Put back into the consumable stream (memory channel or backend),
with the call returning dirty = `true`; when not exiting and `t < t0` the
item stays in both the deferred heap and the deferred map. -/
theorem c6_processDeferredQueue_spec (c : Chan) (t t0 : Int) (itemA : Nat)
    (hmem : itemA ∈ c.deferredPQ)
    (hcount : c.deferredPQ.count itemA = 1)
    (ht0 : pqueue.key c.items itemA = t0)
    (hH : pqueue.HeapD (pqueue.key c.items) c.deferredPQ c.deferredPQ.length)
    (hbf : c.backendFail = false)
    (hlook : c.deferredMessages.lookup
      (getMsg c (pqueue.getItem c.items itemA).val).ID = some itemA)
    (hids : ∀ b, b ∈ c.deferredPQ → b ≠ itemA →
      (getMsg c (pqueue.getItem c.items b).val).ID ≠
        (getMsg c (pqueue.getItem c.items itemA).val).ID) :
    (c.Exiting = true → c.processDeferredQueue t = (c, false)) ∧
    (c.Exiting = false → t0 ≤ t →
      itemA ∉ (c.processDeferredQueue t).1.deferredPQ ∧
      (c.processDeferredQueue t).1.deferredMessages.lookup
        (getMsg c (pqueue.getItem c.items itemA).val).ID = none ∧
      ((pqueue.getItem c.items itemA).val ∈
          (c.processDeferredQueue t).1.memoryMsgChan ∨
        (pqueue.getItem c.items itemA).val ∈ (c.processDeferredQueue t).1.backend) ∧
      (c.processDeferredQueue t).2 = true) ∧
    (c.Exiting = false → t < t0 →
      itemA ∈ (c.processDeferredQueue t).1.deferredPQ ∧
      (c.processDeferredQueue t).1.deferredMessages.lookup
        (getMsg c (pqueue.getItem c.items itemA).val).ID = some itemA) := by
  refine ⟨?_, ?_, ?_⟩
  · intro hex
    simp [Chan.processDeferredQueue, hex]
  · intro hex hle
    have hpd : c.processDeferredQueue t = Chan.pdqLoop c t false c.deferredPQ.length := by
      simp [Chan.processDeferredQueue, hex]
    rw [hpd]
    exact pdqLoop_removes c.deferredPQ.length c t false itemA hmem hcount
      (by rw [ht0]; exact hle) hH (le_refl _) hbf
  · intro hex hlt
    have hpd : c.processDeferredQueue t = Chan.pdqLoop c t false c.deferredPQ.length := by
      simp [Chan.processDeferredQueue, hex]
    rw [hpd]
    exact pdqLoop_keeps c.deferredPQ.length c t false itemA hmem
      (by rw [ht0]; exact hlt) hlook hids

theorem c6_processDeferredQueue_spec_witness :
    (let cW : Chan := { NewChannel 2 100 false with
      msgs := [⟨9, 0, 0, 0⟩], items := [⟨0, 50, 0⟩],
      deferredMessages := [(9, 0)], deferredPQ := [0] }
    0 ∉ (cW.processDeferredQueue 60).1.deferredPQ ∧
    (cW.processDeferredQueue 60).1.deferredMessages.lookup
      (getMsg cW (pqueue.getItem cW.items 0).val).ID = none ∧
    ((pqueue.getItem cW.items 0).val ∈ (cW.processDeferredQueue 60).1.memoryMsgChan ∨
      (pqueue.getItem cW.items 0).val ∈ (cW.processDeferredQueue 60).1.backend) ∧
    (cW.processDeferredQueue 60).2 = true) := by
  obtain ⟨-, h2, -⟩ := c6_processDeferredQueue_spec
    { NewChannel 2 100 false with
      msgs := [⟨9, 0, 0, 0⟩], items := [⟨0, 50, 0⟩],
      deferredMessages := [(9, 0)], deferredPQ := [0] } 60 50 0
    (by decide) (by decide) (by decide) (by decide) (by decide) (by decide) (by decide)
  exact h2 (by decide) (by decide)

end nsqd
